import Mathlib

/-!
# Verification of the JarvisRobotHub view-state / explosion-animation engine

Shallow embedding of the core of the JARVIS Robot HUB 3D mech viewer:

* `src/types/mechConfig.ts` — part registry (`MECH_HIERARCHY`, `EXPLODE_OFFSETS`);
* `src/three/explodeController.ts` — the explosion smoother
  (`ExplodeController.smoothValue`, `update`, `updatePartPositions`);
* `src/interaction/gestureController.ts` — the `SimpleStateMachine`
  (states `Assembled` / `Exploded` / `PartView`, explosion adjustment,
  selection, cycling, go-back, ring layout);
* `src/three/selectionController.ts` — `SelectionController.setSelectedPart`
  and its drill-down affordance.

Numbers that the TypeScript source manipulates as IEEE doubles are modelled
as exact rationals (`ℚ`) for the factor / state-machine logic, and as reals
(`ℝ`) where the source takes square roots or trigonometric functions
(vector normalisation, ring-slot placement).
-/

namespace Jarvis

/-! ## Part registry (`mechConfig.ts`) -/

/-- `MajorPartId` — the seven top-level explodable parts. -/
inductive MajorPartId : Type
  | Head | neck | mainbody | Leftarm | Rightarm | Leftleg | Rightleg
  deriving DecidableEq, Repr

/-- Sub-part identifiers (children of arms and legs). -/
inductive SubPartId : Type
  | Leftupperarm | Leftdownarm | Lefthand
  | Rightupperarm | Rightdownarm | Righthand
  | Leftupperleg | Leftdownleg | Leftfeet
  | Rightupperleg | Rightdownleg | Rightfeet
  deriving DecidableEq, Repr

/-- `PartId` — any part, major or sub. -/
inductive PartId : Type
  | major (p : MajorPartId)
  | sub (p : SubPartId)
  deriving DecidableEq, Repr

open MajorPartId SubPartId

/-- `MECH_HIERARCHY.majorParts` — the ordered list of major parts. -/
def majorParts : List MajorPartId :=
  [Head, neck, mainbody, Leftarm, Rightarm, Leftleg, Rightleg]

/-- `MECH_HIERARCHY.childrenMap` via `getChildParts`: children of a major part. -/
def getChildParts : MajorPartId → List SubPartId
  | Leftarm => [Leftupperarm, Leftdownarm, Lefthand]
  | Rightarm => [Rightupperarm, Rightdownarm, Righthand]
  | Leftleg => [Leftupperleg, Leftdownleg, Leftfeet]
  | Rightleg => [Rightupperleg, Rightdownleg, Rightfeet]
  | _ => []

/-- A 3-component vector (models `THREE.Vector3`). -/
structure Vec3 (α : Type) where
  x : α
  y : α
  z : α
  deriving DecidableEq, Repr

namespace Vec3

def add {α : Type} [Add α] (a b : Vec3 α) : Vec3 α := ⟨a.x + b.x, a.y + b.y, a.z + b.z⟩

def smul {α : Type} [Mul α] (k : α) (a : Vec3 α) : Vec3 α := ⟨k * a.x, k * a.y, k * a.z⟩

/-- Coerce a rational vector to a real vector. -/
def toReal (a : Vec3 ℚ) : Vec3 ℝ := ⟨(a.x : ℝ), (a.y : ℝ), (a.z : ℝ)⟩

end Vec3

/-- `EXPLODE_OFFSETS[...].direction` — raw (unnormalised) explode direction of a part. -/
def explodeOffsetDir : PartId → Vec3 ℚ
  | .major Head => ⟨0, 4/5, 2/5⟩
  | .major neck => ⟨0, 1/2, 3/10⟩
  | .major mainbody => ⟨0, 1/10, 1/2⟩
  | .major Leftarm => ⟨1, 1/5, 3/10⟩
  | .major Rightarm => ⟨-1, 1/5, 3/10⟩
  | .major Leftleg => ⟨3/20, -13/20, 1/5⟩
  | .major Rightleg => ⟨-3/20, -13/20, 1/5⟩
  | .sub Leftupperarm => ⟨1/2, 1/5, 2/5⟩
  | .sub Leftdownarm => ⟨2/5, 1/10, 1/2⟩
  | .sub Lefthand => ⟨3/10, 0, 3/5⟩
  | .sub Rightupperarm => ⟨-1/2, 1/5, 2/5⟩
  | .sub Rightdownarm => ⟨-2/5, 1/10, 1/2⟩
  | .sub Righthand => ⟨-3/10, 0, 3/5⟩
  | .sub Leftupperleg => ⟨3/10, 0, 2/5⟩
  | .sub Leftdownleg => ⟨1/5, -1/10, 1/2⟩
  | .sub Leftfeet => ⟨1/10, -1/5, 1/2⟩
  | .sub Rightupperleg => ⟨-3/10, 0, 2/5⟩
  | .sub Rightdownleg => ⟨-1/5, -1/10, 1/2⟩
  | .sub Rightfeet => ⟨-1/10, -1/5, 1/2⟩

/-- `EXPLODE_OFFSETS[...].distance`. -/
def explodeOffsetDist : PartId → ℚ
  | .major Head => 1/2
  | .major neck => 3/10
  | .major mainbody => 1/5
  | .major Leftarm => 3/5
  | .major Rightarm => 3/5
  | .major Leftleg => 11/20
  | .major Rightleg => 11/20
  | .sub Leftupperarm => 1/4
  | .sub Leftdownarm => 3/10
  | .sub Lefthand => 7/20
  | .sub Rightupperarm => 1/4
  | .sub Rightdownarm => 3/10
  | .sub Righthand => 7/20
  | .sub Leftupperleg => 1/4
  | .sub Leftdownleg => 3/10
  | .sub Leftfeet => 7/20
  | .sub Rightupperleg => 1/4
  | .sub Rightdownleg => 3/10
  | .sub Rightfeet => 7/20

/-- `THREE.Vector3.normalize()` — divide by the Euclidean length; THREE leaves
the zero vector unchanged (`divideScalar(length || 1)`). -/
noncomputable def normalize (v : Vec3 ℝ) : Vec3 ℝ :=
  let len := Real.sqrt (v.x ^ 2 + v.y ^ 2 + v.z ^ 2)
  if len = 0 then v else ⟨v.x / len, v.y / len, v.z / len⟩

/-! ## Explosion smoother (`explodeController.ts`) -/

/-- `EXPLODE_CONFIG.SMOOTHING` (0.08). -/
def EXPLODE_SMOOTHING : ℚ := 2/25

/-- `EXPLODE_CONFIG.MAX_CHANGE_PER_FRAME` (0.05). -/
def MAX_CHANGE_PER_FRAME : ℚ := 1/20

/-- `EXPLODE_CONFIG.CHANGE_THRESHOLD` (0.001). -/
def CHANGE_THRESHOLD : ℚ := 1/1000

/-- `EXPLODE_CONFIG.ROTATION_AMOUNT` (0.1). -/
def ROTATION_AMOUNT : ℚ := 1/10

/-- `ExplodeController.smoothValue(current, target, smoothing)`:
rate-limited exponential approach with an exact snap once the new value is
within `CHANGE_THRESHOLD` of the target. -/
def smoothValue (current target smoothing : ℚ) : ℚ :=
  let diff := target - current
  let clampedDiff := max (-MAX_CHANGE_PER_FRAME) (min MAX_CHANGE_PER_FRAME (diff * smoothing))
  let newValue := current + clampedDiff
  if |newValue - target| < CHANGE_THRESHOLD then target else newValue

/-- Cached per-part data (`PartData` in `explodeController.ts`): the rest pose
and explode parameters captured by `initPartData`.  `explodeDirection` comes
from `loadMech`, which stores `createPartConfig`'s already-normalised
direction, hence it is an arbitrary real vector here.  Node names (strings in
the source) are modelled as abstract identifiers. -/
structure PartData where
  name : ℕ
  basePosition : Vec3 ℝ
  baseRotation : Vec3 ℝ
  explodeDirection : Vec3 ℝ
  explodeDistance : ℝ

/-- State of an `ExplodeController`: the two smoothed factors plus the mesh
transforms it drives.  `meshPos`/`meshRot` give the current transform of the
mesh named by each cached part. -/
structure ECState where
  globalFactorCurrent : ℚ
  globalFactorTarget : ℚ
  partFactorCurrent : ℚ
  partFactorTarget : ℚ
  meshPos : ℕ → Vec3 ℝ
  meshRot : ℕ → Vec3 ℝ

/-- `ExplodeController.setGlobalExplosionTarget` — clamps into [0,1]. -/
def ECsetGlobalTarget (factor : ℚ) (s : ECState) : ECState :=
  { s with globalFactorTarget := max 0 (min 1 factor) }

/-- `ExplodeController.setPartExplosionTarget` — clamps into [0,1]. -/
def ECsetPartTarget (factor : ℚ) (s : ECState) : ECState :=
  { s with partFactorTarget := max 0 (min 1 factor) }

/-- One part's new position under `ExplodeController.updatePartPositions`:
`basePosition + explodeDirection * (explodeDistance * effectiveFactor * 2)`. -/
noncomputable def ECpartPosition (d : PartData) (effectiveFactor : ℝ) : Vec3 ℝ :=
  d.basePosition.add (Vec3.smul (d.explodeDistance * effectiveFactor * 2) d.explodeDirection)

/-- One part's new rotation under `ExplodeController.updatePartPositions`:
`baseRotation + explodeDirection * (effectiveFactor * ROTATION_AMOUNT)` when
`effectiveFactor > 0.01`, else exactly `baseRotation`. -/
noncomputable def ECpartRotation (d : PartData) (effectiveFactor : ℝ) : Vec3 ℝ :=
  if effectiveFactor > 1/100 then
    d.baseRotation.add (Vec3.smul (effectiveFactor * (ROTATION_AMOUNT : ℝ)) d.explodeDirection)
  else
    d.baseRotation

/-- The body of the `forEach` in `ExplodeController.updatePartPositions`:
overwrite one cached part's mesh transform from its immutable base pose. -/
noncomputable def ECapplyPart (effectiveFactor : ℝ) (st : ECState) (d : PartData) : ECState :=
  { st with
    meshPos := fun n => if n = d.name then ECpartPosition d effectiveFactor else st.meshPos n
    meshRot := fun n => if n = d.name then ECpartRotation d effectiveFactor else st.meshRot n }

/-- `ExplodeController.updatePartPositions` over a cached parts list:
`effectiveFactor = globalFactorCurrent * GLOBAL_SCALE` with
`GLOBAL_SCALE = 1.0`; every cached part's transform is overwritten from its
immutable base pose; meshes not in the cache are untouched. -/
noncomputable def ECupdatePartPositions (parts : List PartData) (s : ECState) : ECState :=
  parts.foldl (ECapplyPart ((s.globalFactorCurrent : ℝ) * 1)) s

/-- `ExplodeController.update` — advance both factors by `smoothValue` with
`EXPLODE_CONFIG.SMOOTHING`, then recompute every cached part's transform. -/
noncomputable def ECupdate (parts : List PartData) (s : ECState) : ECState :=
  let s1 := { s with
    globalFactorCurrent := smoothValue s.globalFactorCurrent s.globalFactorTarget EXPLODE_SMOOTHING
    partFactorCurrent := smoothValue s.partFactorCurrent s.partFactorTarget EXPLODE_SMOOTHING }
  ECupdatePartPositions parts s1

/-! ## Convergence of `smoothValue` (claim C1) -/

/-- One smoother tick toward a fixed target `t` (as `ExplodeController.update`
performs per factor, with `EXPLODE_CONFIG.SMOOTHING`). -/
def ecTick (t c : ℚ) : ℚ := smoothValue c t EXPLODE_SMOOTHING

lemma ecTick_self (t : ℚ) : ecTick t t = t := by
  unfold ecTick smoothValue EXPLODE_SMOOTHING MAX_CHANGE_PER_FRAME CHANGE_THRESHOLD
  norm_num

/-- Unclamped regime: one tick contracts the gap by the factor 23/25. -/
lemma ecTick_contract {t c : ℚ} (h : |t - c| ≤ 5/8) :
    |t - ecTick t c| ≤ (23/25) * |t - c| := by
  unfold ecTick smoothValue EXPLODE_SMOOTHING MAX_CHANGE_PER_FRAME CHANGE_THRESHOLD
  obtain ⟨h1, h2⟩ := abs_le.mp h
  have hmin : min (1/20 : ℚ) ((t - c) * (2/25)) = (t - c) * (2/25) :=
    min_eq_right (by linarith)
  have hmax : max (-(1/20) : ℚ) ((t - c) * (2/25)) = (t - c) * (2/25) :=
    max_eq_right (by linarith)
  simp only [hmin, hmax]
  split
  · simp only [sub_self, abs_zero]
    positivity
  · have : t - (c + (t - c) * (2/25)) = (23/25) * (t - c) := by ring
    rw [this, abs_mul, abs_of_pos (by norm_num : (0:ℚ) < 23/25)]

/-- Snap regime: once the post-step gap is below the threshold, one tick lands
exactly on the target. -/
lemma ecTick_snap {t c : ℚ} (h : (23/25) * |t - c| < 1/1000) :
    ecTick t c = t := by
  have hsmall : |t - c| ≤ 5/8 := by
    have := abs_nonneg (t - c); nlinarith
  unfold ecTick smoothValue EXPLODE_SMOOTHING MAX_CHANGE_PER_FRAME CHANGE_THRESHOLD
  obtain ⟨h1, h2⟩ := abs_le.mp hsmall
  have hmin : min (1/20 : ℚ) ((t - c) * (2/25)) = (t - c) * (2/25) :=
    min_eq_right (by linarith)
  have hmax : max (-(1/20) : ℚ) ((t - c) * (2/25)) = (t - c) * (2/25) :=
    max_eq_right (by linarith)
  simp only [hmin, hmax]
  have heq : c + (t - c) * (2/25) - t = -((23/25) * (t - c)) := by ring
  have hcond : |c + (t - c) * (2/25) - t| < 1/1000 := by
    rw [heq, abs_neg, abs_mul, abs_of_pos (by norm_num : (0:ℚ) < 23/25)]
    exact h
  rw [if_pos hcond]

/-- Clamped regime: while the gap exceeds 5/8, one tick shrinks it by exactly
the rate limit 1/20. -/
lemma ecTick_desc {t c : ℚ} (h : 5/8 < |t - c|) :
    |t - ecTick t c| = |t - c| - 1/20 := by
  unfold ecTick smoothValue EXPLODE_SMOOTHING MAX_CHANGE_PER_FRAME CHANGE_THRESHOLD
  rcases abs_cases (t - c) with ⟨habs, hsgn⟩ | ⟨habs, hsgn⟩
  · -- t - c ≥ 0, so t - c > 5/8
    have hgt : 5/8 < t - c := by rwa [habs] at h
    have hmin : min (1/20 : ℚ) ((t - c) * (2/25)) = 1/20 :=
      min_eq_left (by linarith)
    have hmax : max (-(1/20) : ℚ) (1/20 : ℚ) = 1/20 := max_eq_right (by norm_num)
    simp only [hmin, hmax]
    rw [if_neg]
    · rw [abs_of_pos (by linarith : (0:ℚ) < t - (c + 1/20)), habs]; ring
    · rw [abs_of_neg (by linarith : c + 1/20 - t < 0)]
      intro hcon; linarith
  · -- t - c < 0 (or = 0, excluded), so c - t > 5/8
    have hlt : t - c < -(5/8) := by
      rw [habs] at h; linarith
    have hmin : min (1/20 : ℚ) ((t - c) * (2/25)) = (t - c) * (2/25) :=
      min_eq_right (by linarith)
    have hmax : max (-(1/20) : ℚ) ((t - c) * (2/25)) = -(1/20) :=
      max_eq_left (by linarith)
    simp only [hmin, hmax]
    rw [if_neg]
    · rw [abs_of_neg (by linarith : t - (c + -(1/20)) < 0), habs]; ring
    · rw [abs_of_pos (by linarith : (0:ℚ) < c + -(1/20) - t)]
      intro hcon; linarith

/-- Descent phase: `k` ticks bring any gap of at most `5/8 + k/20` down to `5/8`. -/
lemma ecTick_iter_desc (t : ℚ) :
    ∀ (k : ℕ) (c : ℚ), |t - c| ≤ 5/8 + k * (1/20) → |t - (ecTick t)^[k] c| ≤ 5/8 := by
  intro k
  induction k with
  | zero => intro c hc; simpa using hc
  | succ k ih =>
    intro c hc
    rw [Function.iterate_succ_apply]
    rcases le_or_lt |t - c| (5/8) with hle | hgt
    · exact ih _ (by
        have := ecTick_contract hle
        have hnn := abs_nonneg (t - c)
        have hknn : (0:ℚ) ≤ k * (1/20) := by positivity
        nlinarith)
    · exact ih _ (by
        rw [ecTick_desc hgt]
        push_cast at hc ⊢
        linarith)

/-- Contraction phase: once the gap is at most `5/8`, `k` ticks scale it by
`(23/25)^k`. -/
lemma ecTick_iter_contract (t : ℚ) :
    ∀ (k : ℕ) (c : ℚ), |t - c| ≤ 5/8 → |t - (ecTick t)^[k] c| ≤ (23/25)^k * |t - c| := by
  intro k
  induction k with
  | zero => intro c _; simp
  | succ k ih =>
    intro c hc
    rw [Function.iterate_succ_apply]
    have hstep := ecTick_contract hc
    have hsmall : |t - ecTick t c| ≤ 5/8 := by
      have := abs_nonneg (t - c); nlinarith
    calc |t - (ecTick t)^[k] (ecTick t c)| ≤ (23/25)^k * |t - ecTick t c| := ih _ hsmall
    _ ≤ (23/25)^k * ((23/25) * |t - c|) := by
        exact mul_le_mul_of_nonneg_left hstep (by positivity)
    _ = (23/25)^(k+1) * |t - c| := by ring

lemma ecTick_iter_self (t : ℚ) : ∀ (m : ℕ), (ecTick t)^[m] t = t := by
  intro m
  induction m with
  | zero => rfl
  | succ m ih => rw [Function.iterate_succ_apply, ecTick_self, ih]

/-- 100 smoother ticks reach the target exactly from any gap of at most 1. -/
lemma ecTick_converges {t c : ℚ} (h : |t - c| ≤ 1) : (ecTick t)^[100] c = t := by
  have h8 : |t - (ecTick t)^[8] c| ≤ 5/8 := by
    apply ecTick_iter_desc t 8 c
    calc |t - c| ≤ 1 := h
    _ ≤ 5/8 + (8:ℕ) * (1/20) := by norm_num
  have h85 : |t - (ecTick t)^[77] ((ecTick t)^[8] c)| ≤ (23/25)^77 * (5/8) := by
    calc |t - (ecTick t)^[77] ((ecTick t)^[8] c)|
        ≤ (23/25)^77 * |t - (ecTick t)^[8] c| := ecTick_iter_contract t 77 _ h8
    _ ≤ (23/25)^77 * (5/8) := by
        exact mul_le_mul_of_nonneg_left h8 (by positivity)
  have h86 : (ecTick t)^[86] c = t := by
    have hsplit : (ecTick t)^[86] c = ecTick t ((ecTick t)^[77] ((ecTick t)^[8] c)) := by
      rw [← Function.iterate_succ_apply' (ecTick t) 77, ← Function.iterate_add_apply]
    rw [hsplit]
    apply ecTick_snap
    calc (23/25) * |t - (ecTick t)^[77] ((ecTick t)^[8] c)|
        ≤ (23/25) * ((23/25)^77 * (5/8)) := by
          exact mul_le_mul_of_nonneg_left h85 (by norm_num)
    _ < 1/1000 := by norm_num
  have : (100:ℕ) = 14 + 86 := by norm_num
  rw [this, Function.iterate_add_apply, h86, ecTick_iter_self]

lemma ECfold_factors (eff : ℝ) : ∀ (parts : List PartData) (s : ECState),
    (parts.foldl (ECapplyPart eff) s).globalFactorCurrent = s.globalFactorCurrent ∧
    (parts.foldl (ECapplyPart eff) s).globalFactorTarget = s.globalFactorTarget ∧
    (parts.foldl (ECapplyPart eff) s).partFactorCurrent = s.partFactorCurrent ∧
    (parts.foldl (ECapplyPart eff) s).partFactorTarget = s.partFactorTarget := by
  intro parts
  induction parts with
  | nil => intro s; exact ⟨rfl, rfl, rfl, rfl⟩
  | cons d parts ih =>
    intro s
    rw [List.foldl_cons]
    exact ih (ECapplyPart eff s d)

lemma ECupdate_factors (parts : List PartData) (s : ECState) :
    (ECupdate parts s).globalFactorCurrent = ecTick s.globalFactorTarget s.globalFactorCurrent ∧
    (ECupdate parts s).globalFactorTarget = s.globalFactorTarget ∧
    (ECupdate parts s).partFactorCurrent = ecTick s.partFactorTarget s.partFactorCurrent ∧
    (ECupdate parts s).partFactorTarget = s.partFactorTarget := by
  unfold ECupdate ECupdatePartPositions
  exact ECfold_factors _ parts _

lemma ECupdate_iter_factors (parts : List PartData) : ∀ (n : ℕ) (s : ECState),
    ((ECupdate parts)^[n] s).globalFactorCurrent
      = (ecTick s.globalFactorTarget)^[n] s.globalFactorCurrent ∧
    ((ECupdate parts)^[n] s).globalFactorTarget = s.globalFactorTarget ∧
    ((ECupdate parts)^[n] s).partFactorCurrent
      = (ecTick s.partFactorTarget)^[n] s.partFactorCurrent ∧
    ((ECupdate parts)^[n] s).partFactorTarget = s.partFactorTarget := by
  intro n
  induction n with
  | zero => intro s; exact ⟨rfl, rfl, rfl, rfl⟩
  | succ n ih =>
    intro s
    obtain ⟨u1, u2, u3, u4⟩ := ECupdate_factors parts s
    obtain ⟨i1, i2, i3, i4⟩ := ih (ECupdate parts s)
    rw [Function.iterate_succ_apply, Function.iterate_succ_apply, Function.iterate_succ_apply]
    refine ⟨?_, ?_, ?_, ?_⟩
    · rw [i1, u1, u2]
    · rw [i2, u2]
    · rw [i3, u3, u4]
    · rw [i4, u4]

/-- C1 (amended).  Explosion-smoother convergence, for the component that
actually implements the clamp-and-snap tick (`ExplodeController`): for every
pair of `setGlobalExplosionTarget` / `setPartExplosionTarget` calls with
arbitrary requested values, followed by 100 `update()` ticks with no further
target changes, both current factors become exactly equal to their (clamped)
targets — no residual drift.  (The claim's additional assertion that the
`SimpleStateMachine.update` smoothing also converges exactly is refuted
separately: that code path has no snap and stalls within 0.001 of its
target.) -/
theorem C1_explosion_smoother_exact_convergence
    (parts : List PartData) (v w : ℚ) (s : ECState)
    (hg0 : 0 ≤ s.globalFactorCurrent) (hg1 : s.globalFactorCurrent ≤ 1)
    (hp0 : 0 ≤ s.partFactorCurrent) (hp1 : s.partFactorCurrent ≤ 1) :
    ((ECupdate parts)^[100] (ECsetPartTarget w (ECsetGlobalTarget v s))).globalFactorCurrent
      = (ECsetGlobalTarget v s).globalFactorTarget ∧
    ((ECupdate parts)^[100] (ECsetPartTarget w (ECsetGlobalTarget v s))).partFactorCurrent
      = (ECsetPartTarget w s).partFactorTarget := by
  set s' := ECsetPartTarget w (ECsetGlobalTarget v s) with hs'
  have hgt : s'.globalFactorTarget = max 0 (min 1 v) := rfl
  have hpt : s'.partFactorTarget = max 0 (min 1 w) := rfl
  have hgc : s'.globalFactorCurrent = s.globalFactorCurrent := rfl
  have hpc : s'.partFactorCurrent = s.partFactorCurrent := rfl
  have hbound : ∀ u : ℚ, 0 ≤ max 0 (min 1 u) ∧ max 0 (min 1 u) ≤ 1 := by
    intro u
    refine ⟨le_max_left 0 _, max_le (by norm_num) (min_le_left 1 u)⟩
  obtain ⟨e1, _, e3, _⟩ := ECupdate_iter_factors parts 100 s'
  constructor
  · rw [e1, hgt, hgc]
    exact ecTick_converges (abs_le.mpr
      ⟨by have := (hbound v).1; linarith, by have := (hbound v).2; linarith⟩)
  · rw [e3, hpt, hpc]
    exact ecTick_converges (abs_le.mpr
      ⟨by have := (hbound w).1; linarith, by have := (hbound w).2; linarith⟩)

/-- A concrete `ExplodeController` state: both factors and targets zero,
all meshes at the origin. -/
def ecSample : ECState :=
  { globalFactorCurrent := 0
    globalFactorTarget := 0
    partFactorCurrent := 0
    partFactorTarget := 0
    meshPos := fun _ => ⟨0, 0, 0⟩
    meshRot := fun _ => ⟨0, 0, 0⟩ }

/-- Witness for C1: from the freshly initialised controller, request targets
1 and 1/2; after 100 ticks both current factors equal those targets exactly. -/
theorem C1_witness :
    ((ECupdate [])^[100] (ECsetPartTarget (1/2) (ECsetGlobalTarget 1 ecSample))).globalFactorCurrent
      = (ECsetGlobalTarget 1 ecSample).globalFactorTarget ∧
    ((ECupdate [])^[100] (ECsetPartTarget (1/2) (ECsetGlobalTarget 1 ecSample))).partFactorCurrent
      = (ECsetPartTarget (1/2) ecSample).partFactorTarget :=
  C1_explosion_smoother_exact_convergence [] 1 (1/2) ecSample
    (by norm_num [ecSample]) (by norm_num [ecSample])
    (by norm_num [ecSample]) (by norm_num [ecSample])

/-! ## `SimpleStateMachine` (`gestureController.ts`) -/

/-- `SimpleViewState` — `'Assembled' | 'Exploded' | 'PartView'`. -/
inductive SimpleViewState : Type
  | Assembled | Exploded | PartView
  deriving DecidableEq, Repr

open SimpleViewState

/-- Index of a major part in `MECH_HIERARCHY.majorParts`
(`majorParts.indexOf(partId)`). -/
def indexOfMajor (p : MajorPartId) : ℕ := majorParts.indexOf p

/-- The angle of secondary-ring slot `i` in `initSubRingPositions`:
`startAngle + angleStep * i` with `startAngle = -π/2`, `angleStep = 2π/7`. -/
noncomputable def slotAngle (i : ℕ) : ℝ := -(Real.pi / 2) + (2 * Real.pi / 7) * i

/-- Secondary-ring slot `i`: `(cos(angle)*4, sin(angle)*4, -2)` with
`subRingDistance = 4.0` and `subRingZ = -2`. -/
noncomputable def subRingSlot (i : ℕ) : Vec3 ℝ :=
  ⟨Real.cos (slotAngle i) * 4, Real.sin (slotAngle i) * 4, -2⟩

/-- `subRingFixedPositions` as built by `initSubRingPositions` (7 slots). -/
noncomputable def subRingFixedPositions : List (Vec3 ℝ) :=
  (List.range 7).map subRingSlot

/-- `mainRingCenter = new THREE.Vector3(0, 0.1, 2.0)`. -/
def mainRingCenter : Vec3 ℚ := ⟨0, 1/10, 2⟩

/-- `partPositionInMainRing` — per-part manual offset at the primary ring. -/
def partPositionInMainRing : MajorPartId → Vec3 ℚ
  | Head => ⟨-1/10, -7/5, -1⟩
  | neck => ⟨-1/5, -7/5, -1⟩
  | mainbody => ⟨-1/10, -1, -1⟩
  | Leftarm => ⟨-1/5, -1/10, -1⟩
  | Rightarm => ⟨1/10, -1/10, -1⟩
  | Leftleg => ⟨0, 1/10, -1⟩
  | Rightleg => ⟨0, 1/10, -1⟩

/-- `partPositionInSubRing` — per-part manual offset at the secondary ring. -/
def partPositionInSubRing : MajorPartId → Vec3 ℚ
  | Head => ⟨-1/20, 6/5, 13/10⟩
  | neck => ⟨-9/5, 7/20, 13/10⟩
  | mainbody => ⟨-9/4, -31/20, 13/10⟩
  | Leftarm => ⟨-1, -11/5, 13/10⟩
  | Rightarm => ⟨1, -11/5, 13/10⟩
  | Leftleg => ⟨21/10, -1/2, 13/10⟩
  | Rightleg => ⟨9/5, 3/2, 13/10⟩

/-- One iteration of the `forEach` in `calculateTransitionTargets`: part
`pi.2` at fixed index `pi.1` is sent to its own slot plus its sub-ring offset
at scale 0.7, unless it is the selected part (which was already placed at the
primary ring). -/
noncomputable def calcTargetStep (selected : MajorPartId)
    (acc : (MajorPartId → Option (Vec3 ℝ)) × (MajorPartId → Option ℝ))
    (pi : ℕ × MajorPartId) :
    (MajorPartId → Option (Vec3 ℝ)) × (MajorPartId → Option ℝ) :=
  if pi.2 = selected then acc
  else
    match subRingFixedPositions[pi.1]? with
    | none => acc
    | some ringPos =>
      let targetPos := ringPos.add (partPositionInSubRing pi.2).toReal
      (fun q => if q = pi.2 then some targetPos else acc.1 q,
       fun q => if q = pi.2 then some (7/10) else acc.2 q)

/-- `SimpleStateMachine.calculateTransitionTargets`: clear both maps, place
the selected part at `mainRingCenter` plus its main-ring offset at scale 1.0,
then send every other major part to the slot of its fixed index in
`MECH_HIERARCHY.majorParts`, at scale 0.7. -/
noncomputable def calcTransitionMaps (selected : MajorPartId) :
    (MajorPartId → Option (Vec3 ℝ)) × (MajorPartId → Option ℝ) :=
  let selectedTarget := (Vec3.add mainRingCenter (partPositionInMainRing selected)).toReal
  let base : (MajorPartId → Option (Vec3 ℝ)) × (MajorPartId → Option ℝ) :=
    (fun q => if q = selected then some selectedTarget else none,
     fun q => if q = selected then some (1:ℝ) else none)
  majorParts.enum.foldl (calcTargetStep selected) base

lemma calcMaps_focused (a : MajorPartId) :
    (calcTransitionMaps a).1 a
      = some ((Vec3.add mainRingCenter (partPositionInMainRing a)).toReal) ∧
    (calcTransitionMaps a).2 a = some (1:ℝ) := by
  cases a <;> exact ⟨rfl, rfl⟩

lemma calcMaps_other {a p : MajorPartId} (h : p ≠ a) :
    (calcTransitionMaps a).1 p
      = some ((subRingSlot (indexOfMajor p)).add (partPositionInSubRing p).toReal) ∧
    (calcTransitionMaps a).2 p = some ((7:ℝ)/10) := by
  cases a <;> cases p <;> first
    | exact absurd rfl h
    | exact ⟨rfl, rfl⟩

/-- The parent major part of each sub part (from `MECH_HIERARCHY.childrenMap`). -/
def parentOfSub : SubPartId → MajorPartId
  | Leftupperarm => Leftarm
  | Leftdownarm => Leftarm
  | Lefthand => Leftarm
  | Rightupperarm => Rightarm
  | Rightdownarm => Rightarm
  | Righthand => Rightarm
  | Leftupperleg => Leftleg
  | Leftdownleg => Leftleg
  | Leftfeet => Leftleg
  | Rightupperleg => Rightleg
  | Rightdownleg => Rightleg
  | Rightfeet => Rightleg

/-- `SimpleStateMachine`'s mutable state: the `uiState` record, the two
target factors, the per-part node transforms of the loaded model (every
major part's node, scalar scale via `setScalar`, and the sub-part node
positions), and the transition-animation system.  The rest pose
(`config.originalPosition`) is the external parameter `basePos` below. -/
structure SMState where
  state : SimpleViewState
  globalExplosion : ℚ
  partExplosion : ℚ
  hoveredPart : Option PartId
  selectedMajorPart : Option MajorPartId
  currentPartIndex : ℤ
  globalExplosionTarget : ℚ
  partExplosionTarget : ℚ
  positions : MajorPartId → Vec3 ℝ
  scales : MajorPartId → ℝ
  childPositions : SubPartId → Vec3 ℝ
  transitionTargets : MajorPartId → Option (Vec3 ℝ)
  transitionScales : MajorPartId → Option ℝ
  isTransitioning : Bool

/-- The freshly constructed `SimpleStateMachine` over a loaded model whose
rest pose is `basePos`: `uiState` starts `Assembled` with factors 0 and both
targets 0, no hover/selection, index 0, nodes at their rest pose with scale 1,
empty transition maps. -/
def initSM (basePos : PartId → Vec3 ℝ) : SMState :=
  { state := Assembled
    globalExplosion := 0
    partExplosion := 0
    hoveredPart := none
    selectedMajorPart := none
    currentPartIndex := 0
    globalExplosionTarget := 0
    partExplosionTarget := 0
    positions := fun p => basePos (.major p)
    scales := fun _ => 1
    childPositions := fun c => basePos (.sub c)
    transitionTargets := fun _ => none
    transitionScales := fun _ => none
    isTransitioning := false }

/-- `SimpleStateMachine.calculateTransitionTargets` as a state update:
replaces both transition maps. -/
noncomputable def calculateTransitionTargets (selected : MajorPartId) (s : SMState) : SMState :=
  { s with
    transitionTargets := (calcTransitionMaps selected).1
    transitionScales := (calcTransitionMaps selected).2 }

/-- `SimpleStateMachine.applyPartViewLayout`: when a major part is selected,
recompute the transition targets and start the transition animation. -/
noncomputable def applyPartViewLayout (s : SMState) : SMState :=
  match s.selectedMajorPart with
  | none => s
  | some selectedPart =>
    let s1 := calculateTransitionTargets selectedPart s
    { s1 with isTransitioning := true }

/-- `SimpleStateMachine.applyNormalExplosion`: every major part's node is
placed at `originalPosition + normalize(direction) * (distance * globalExplosion)`. -/
noncomputable def applyNormalExplosion (basePos : PartId → Vec3 ℝ) (s : SMState) : SMState :=
  { s with
    positions := fun p =>
      let dir := normalize (explodeOffsetDir (.major p)).toReal
      let distance := (explodeOffsetDist (.major p) : ℝ) * (s.globalExplosion : ℝ)
      (basePos (.major p)).add (Vec3.smul distance dir) }

/-- `SimpleStateMachine.applyPartExplosion`: if a major part is selected and
`partExplosion > 0`, its children are placed at
`originalPosition + normalize(direction) * (distance * partExplosion)`. -/
noncomputable def applyPartExplosion (basePos : PartId → Vec3 ℝ) (s : SMState) : SMState :=
  match s.selectedMajorPart with
  | none => s
  | some selectedPart =>
    if s.partExplosion > 0 then
      { s with
        childPositions := fun c =>
          if c ∈ getChildParts selectedPart then
            let dir := normalize (explodeOffsetDir (.sub c)).toReal
            let distance := (explodeOffsetDist (.sub c) : ℝ) * (s.partExplosion : ℝ)
            (basePos (.sub c)).add (Vec3.smul distance dir)
          else s.childPositions c }
    else s

/-- `SimpleStateMachine.applyExplosion`: ring layout in `PartView`, normal
explosion otherwise. -/
noncomputable def applyExplosion (basePos : PartId → Vec3 ℝ) (s : SMState) : SMState :=
  if s.state = PartView then applyPartViewLayout s else applyNormalExplosion basePos s

/-- Euclidean distance of two vectors (`THREE.Vector3.distanceTo`). -/
noncomputable def vdist (a b : Vec3 ℝ) : ℝ :=
  Real.sqrt ((a.x - b.x) ^ 2 + (a.y - b.y) ^ 2 + (a.z - b.z) ^ 2)

/-- `THREE.Vector3.lerp` / `THREE.MathUtils.lerp`: move the fraction `t` of
the remaining distance. -/
def vlerp (a b : Vec3 ℝ) (t : ℝ) : Vec3 ℝ :=
  ⟨a.x + (b.x - a.x) * t, a.y + (b.y - a.y) * t, a.z + (b.z - a.z) * t⟩

/-- `transitionSpeed = 0.08`. -/
def transitionSpeed : ℚ := 2/25

/-- The body of the `forEach` in `applyTransitionAnimation`: one major part's
position and scale step toward their transition targets (snapping within
0.01), and the all-reached flag records whether every treated part had
already arrived. -/
noncomputable def transitionAnimStep (s : SMState)
    (acc : (MajorPartId → Vec3 ℝ) × (MajorPartId → ℝ) × Bool) (p : MajorPartId) :
    (MajorPartId → Vec3 ℝ) × (MajorPartId → ℝ) × Bool :=
  match s.transitionTargets p with
  | none => acc
  | some targetPos =>
    let targetScale := (s.transitionScales p).getD 1
    let currentPos := acc.1 p
    let currentScale := acc.2.1 p
    let posReached : Bool := decide (vdist currentPos targetPos < 1/100)
    let newPos := if posReached then targetPos
                  else vlerp currentPos targetPos (transitionSpeed : ℝ)
    let scaleReached : Bool := decide (|currentScale - targetScale| < 1/100)
    let newScale := if scaleReached then targetScale
                    else currentScale + (targetScale - currentScale) * (transitionSpeed : ℝ)
    (fun q => if q = p then newPos else acc.1 q,
     fun q => if q = p then newScale else acc.2.1 q,
     acc.2.2 && posReached && scaleReached)

/-- `SimpleStateMachine.applyTransitionAnimation`: step every major part
toward its transition target; when all parts have arrived, stop the
transition animation. -/
noncomputable def applyTransitionAnimation (s : SMState) : SMState :=
  let r := majorParts.foldl (transitionAnimStep s) (s.positions, s.scales, true)
  { s with
    positions := r.1
    scales := r.2.1
    isTransitioning := if r.2.2 then false else s.isTransitioning }

/-- `SimpleStateMachine.transitionTo`: switch the state tag (no-op when
unchanged); on entering `PartView` force the global target to at least 1 and
immediately apply the ring layout. -/
noncomputable def transitionTo (newState : SimpleViewState) (s : SMState) : SMState :=
  if s.state = newState then s
  else
    let s1 := { s with state := newState }
    if newState = PartView then
      applyPartViewLayout { s1 with globalExplosionTarget := max s1.globalExplosionTarget 1 }
    else s1

/-- The clamp-add to the global target inside `adjustExplosion`
(`Math.max(0, Math.min(1, target + delta))`). -/
def adjustGlobalTarget (delta : ℚ) (s : SMState) : SMState :=
  { s with globalExplosionTarget := max 0 (min 1 (s.globalExplosionTarget + delta)) }

/-- `SimpleStateMachine.adjustExplosion(delta)`: clamp-add to the part target
in `PartView`, otherwise to the global target, then auto-switch between
`Assembled` and `Exploded` at the 0.1 / 0.05 thresholds. -/
noncomputable def adjustExplosion (delta : ℚ) (s : SMState) : SMState :=
  if s.state = PartView then
    { s with partExplosionTarget := max 0 (min 1 (s.partExplosionTarget + delta)) }
  else if (adjustGlobalTarget delta s).globalExplosionTarget > 1/10
       ∧ (adjustGlobalTarget delta s).state = Assembled then
    transitionTo Exploded (adjustGlobalTarget delta s)
  else if (adjustGlobalTarget delta s).globalExplosionTarget < 1/20
       ∧ (adjustGlobalTarget delta s).state = Exploded then
    transitionTo Assembled (adjustGlobalTarget delta s)
  else adjustGlobalTarget delta s

/-- The per-factor smoothing line of `SimpleStateMachine.update`: with
`smoothing = 0.1`, advance `current` by 10% of the remaining gap, but only
while the gap exceeds 0.001 (no snap to the target). -/
def smSmooth (target current : ℚ) : ℚ :=
  if |current - target| > 1/1000 then current + (target - current) * (1/10) else current

/-- The first half of `SimpleStateMachine.update`: both factors take one
`smSmooth` step. -/
def SMsmoothFactors (s : SMState) : SMState :=
  { s with
    globalExplosion := smSmooth s.globalExplosionTarget s.globalExplosion
    partExplosion := smSmooth s.partExplosionTarget s.partExplosion }

/-- `SimpleStateMachine.update(deltaTime)`: smooth both factors toward their
targets, then either advance the transition animation (in `PartView`, plus
the child explosion when `partExplosion > 0`) or re-apply the explosion when
a factor moved (`explosionChanged`). -/
noncomputable def SMupdate (basePos : PartId → Vec3 ℝ) (s : SMState) : SMState :=
  if (SMsmoothFactors s).state = PartView ∧ (SMsmoothFactors s).isTransitioning = true then
    if (applyTransitionAnimation (SMsmoothFactors s)).partExplosion > 0 then
      applyPartExplosion basePos (applyTransitionAnimation (SMsmoothFactors s))
    else applyTransitionAnimation (SMsmoothFactors s)
  else if |s.globalExplosion - s.globalExplosionTarget| > 1/1000
       ∨ |s.partExplosion - s.partExplosionTarget| > 1/1000 then
    applyExplosion basePos (SMsmoothFactors s)
  else SMsmoothFactors s

/-- `SimpleStateMachine.resetAllChildrenExcept(keepPart)`: the children of
every other major part return to their rest positions. -/
def resetAllChildrenExcept (basePos : PartId → Vec3 ℝ) (keepPart : Option MajorPartId)
    (s : SMState) : SMState :=
  { s with
    childPositions := fun c =>
      if some (parentOfSub c) = keepPart then s.childPositions c
      else basePos (.sub c) }

/-- `SimpleStateMachine.selectPart(partId)` (the `PartView`-internal
switch): select, keep the view exploded, collapse the child explosion, reset
other parts' children, recompute targets and restart the transition. -/
noncomputable def selectPart (basePos : PartId → Vec3 ℝ) (partId : MajorPartId)
    (s : SMState) : SMState :=
  let s1 := { s with
    selectedMajorPart := some partId
    currentPartIndex := (indexOfMajor partId : ℤ)
    globalExplosionTarget := max s.globalExplosionTarget 1
    partExplosionTarget := 0
    partExplosion := 0 }
  let s2 := resetAllChildrenExcept basePos (some partId) s1
  let s3 := calculateTransitionTargets partId s2
  { s3 with isTransitioning := true }

/-- `SimpleStateMachine.selectHoveredPart()`: double-activation of the
hovered part; returns whether the selection succeeded. -/
noncomputable def selectHoveredPart (basePos : PartId → Vec3 ℝ) (s : SMState) :
    Bool × SMState :=
  match s.hoveredPart with
  | none => (false, s)
  | some hovered =>
    if s.state = Exploded ∨ s.globalExplosion > 1/10 then
      match hovered with
      | .major majorPart =>
        let s1 := { s with
          selectedMajorPart := some majorPart
          currentPartIndex := (indexOfMajor majorPart : ℤ)
          partExplosionTarget := 0
          partExplosion := 0 }
        let s2 := { s1 with
          globalExplosion := max s1.globalExplosion (1/2)
          globalExplosionTarget := max s1.globalExplosionTarget 1 }
        let s3 := transitionTo PartView s2
        (true, applyPartViewLayout s3)
      | .sub _ => (false, s)
    else if s.state = PartView then
      match hovered with
      | .major partId => (true, selectPart basePos partId s)
      | .sub _ => (false, s)
    else (false, s)

/-- The wrapped index step of `navigateInternal`:
`(currentPartIndex + delta + partList.length) % partList.length` with
JavaScript `%`, i.e. the truncated remainder. -/
def navNewIndex (delta : ℤ) (s : SMState) : ℤ :=
  (s.currentPartIndex + delta + majorParts.length).tmod majorParts.length

/-- `partList[currentPartIndex]` after the index step of `navigateInternal`. -/
def navNewPart (delta : ℤ) (s : SMState) : MajorPartId :=
  majorParts.getD (navNewIndex delta s).toNat Head

/-- `SimpleStateMachine.navigateInternal(delta)`: outside `PartView` and
`Exploded` a no-op; otherwise step `currentPartIndex` by `delta` modulo the
major-part count, then either re-select (in `PartView`) or just move the
highlight (in `Exploded`). -/
noncomputable def navigateInternal (basePos : PartId → Vec3 ℝ) (delta : ℤ)
    (s : SMState) : SMState :=
  if ¬ (s.state = PartView ∨ s.state = Exploded) then s
  else if majorParts.length = 0 then s
  else if s.state = PartView then
    selectPart basePos (navNewPart delta s) { s with currentPartIndex := navNewIndex delta s }
  else
    { s with
      currentPartIndex := navNewIndex delta s
      hoveredPart := some (.major (navNewPart delta s)) }

/-- `SimpleStateMachine.navigate('up' | 'down')` — `up ↦ -1`, `down ↦ 1`. -/
noncomputable def navigate (basePos : PartId → Vec3 ℝ) (up : Bool) (s : SMState) : SMState :=
  navigateInternal basePos (if up then -1 else 1) s

/-- `SimpleStateMachine.navigateLeftRight('left' | 'right')` — `left ↦ -1`,
`right ↦ 1`. -/
noncomputable def navigateLeftRight (basePos : PartId → Vec3 ℝ) (left : Bool)
    (s : SMState) : SMState :=
  navigateInternal basePos (if left then -1 else 1) s

/-- The writes of the `PartView` branch of `goBack`, in source order: reset
all children (`resetAllChildrenExcept(null)`), clear hover and selection,
collapse the part factor, restore all major-part scales
(`resetAllPartScales`) and positions (`resetAllPartPositions`), zero the
global target. -/
def goBackWrite (basePos : PartId → Vec3 ℝ) (s : SMState) : SMState :=
  { resetAllChildrenExcept basePos none s with
    hoveredPart := none
    selectedMajorPart := none
    partExplosionTarget := 0
    partExplosion := 0
    scales := fun _ => 1
    positions := fun p => basePos (.major p)
    globalExplosionTarget := 0 }

/-- `SimpleStateMachine.goBack()`: from `PartView`, apply `goBackWrite` and
return to `Assembled`; from `Exploded`, only zero the global target. -/
noncomputable def goBack (basePos : PartId → Vec3 ℝ) (s : SMState) : SMState :=
  if s.state = PartView then
    transitionTo Assembled (goBackWrite basePos s)
  else if s.state = Exploded then
    { s with globalExplosionTarget := 0 }
  else s

/-- `SimpleStateMachine.setHoveredPartId(partId)`. -/
def setHoveredPartId (partId : Option PartId) (s : SMState) : SMState :=
  if s.hoveredPart = partId then s else { s with hoveredPart := partId }

/-- The public command surface of `SimpleStateMachine`. -/
inductive SMOp : Type
  | adjust (delta : ℚ)
  | tick
  | selectHovered
  | nav (up : Bool)
  | navLR (left : Bool)
  | back
  | hover (partId : Option PartId)

/-- Interpret one public command. -/
noncomputable def SMstep (basePos : PartId → Vec3 ℝ) (op : SMOp) (s : SMState) : SMState :=
  match op with
  | .adjust d => adjustExplosion d s
  | .tick => SMupdate basePos s
  | .selectHovered => (selectHoveredPart basePos s).2
  | .nav up => navigate basePos up s
  | .navLR left => navigateLeftRight basePos left s
  | .back => goBack basePos s
  | .hover p => setHoveredPartId p s

/-- Run a sequence of public commands from a state. -/
noncomputable def SMrun (basePos : PartId → Vec3 ℝ) (ops : List SMOp) (s : SMState) : SMState :=
  ops.foldl (fun s op => SMstep basePos op s) s

/-! ### Projection lemmas: which fields each internal helper leaves alone -/

/-- `t` agrees with `s` on the whole scalar `uiState` (everything except the
node transforms and the transition-animation system). -/
def SameUI (s t : SMState) : Prop :=
  t.state = s.state ∧ t.globalExplosion = s.globalExplosion ∧
  t.partExplosion = s.partExplosion ∧ t.hoveredPart = s.hoveredPart ∧
  t.selectedMajorPart = s.selectedMajorPart ∧
  t.currentPartIndex = s.currentPartIndex ∧
  t.globalExplosionTarget = s.globalExplosionTarget ∧
  t.partExplosionTarget = s.partExplosionTarget

lemma sameUI_refl (s : SMState) : SameUI s s :=
  ⟨rfl, rfl, rfl, rfl, rfl, rfl, rfl, rfl⟩

lemma sameUI_trans {s t u : SMState} (h1 : SameUI s t) (h2 : SameUI t u) : SameUI s u := by
  obtain ⟨a1, a2, a3, a4, a5, a6, a7, a8⟩ := h1
  obtain ⟨b1, b2, b3, b4, b5, b6, b7, b8⟩ := h2
  exact ⟨b1.trans a1, b2.trans a2, b3.trans a3, b4.trans a4,
         b5.trans a5, b6.trans a6, b7.trans a7, b8.trans a8⟩

lemma calculateTransitionTargets_sameUI (p : MajorPartId) (s : SMState) :
    SameUI s (calculateTransitionTargets p s) := sameUI_refl _

lemma applyPartViewLayout_sameUI (s : SMState) : SameUI s (applyPartViewLayout s) := by
  unfold applyPartViewLayout
  cases h : s.selectedMajorPart with
  | none => exact sameUI_refl _
  | some p => exact sameUI_refl _

lemma applyNormalExplosion_sameUI (b : PartId → Vec3 ℝ) (s : SMState) :
    SameUI s (applyNormalExplosion b s) := sameUI_refl _

lemma applyPartExplosion_sameUI (b : PartId → Vec3 ℝ) (s : SMState) :
    SameUI s (applyPartExplosion b s) := by
  unfold applyPartExplosion
  cases h : s.selectedMajorPart with
  | none => exact sameUI_refl _
  | some p =>
    by_cases hp : s.partExplosion > 0
    · simp only [if_pos hp]
      exact ⟨rfl, rfl, rfl, rfl, h.symm, rfl, rfl, rfl⟩
    · simp only [if_neg hp]
      exact sameUI_refl _

lemma applyExplosion_sameUI (b : PartId → Vec3 ℝ) (s : SMState) :
    SameUI s (applyExplosion b s) := by
  unfold applyExplosion
  split
  · exact applyPartViewLayout_sameUI s
  · exact applyNormalExplosion_sameUI b s

lemma applyTransitionAnimation_sameUI (s : SMState) :
    SameUI s (applyTransitionAnimation s) := sameUI_refl _

lemma resetAllChildrenExcept_sameUI (b : PartId → Vec3 ℝ) (k : Option MajorPartId)
    (s : SMState) : SameUI s (resetAllChildrenExcept b k s) := sameUI_refl _

/-- What `update` does to the scalar `uiState`: both factors take one
`smSmooth` step and everything else is untouched. -/
lemma SMupdate_ui (b : PartId → Vec3 ℝ) (s : SMState) :
    (SMupdate b s).state = s.state ∧
    (SMupdate b s).hoveredPart = s.hoveredPart ∧
    (SMupdate b s).selectedMajorPart = s.selectedMajorPart ∧
    (SMupdate b s).currentPartIndex = s.currentPartIndex ∧
    (SMupdate b s).globalExplosionTarget = s.globalExplosionTarget ∧
    (SMupdate b s).partExplosionTarget = s.partExplosionTarget ∧
    (SMupdate b s).globalExplosion = smSmooth s.globalExplosionTarget s.globalExplosion ∧
    (SMupdate b s).partExplosion = smSmooth s.partExplosionTarget s.partExplosion := by
  have hbase : (SMsmoothFactors s).state = s.state ∧
      (SMsmoothFactors s).hoveredPart = s.hoveredPart ∧
      (SMsmoothFactors s).selectedMajorPart = s.selectedMajorPart ∧
      (SMsmoothFactors s).currentPartIndex = s.currentPartIndex ∧
      (SMsmoothFactors s).globalExplosionTarget = s.globalExplosionTarget ∧
      (SMsmoothFactors s).partExplosionTarget = s.partExplosionTarget ∧
      (SMsmoothFactors s).globalExplosion = smSmooth s.globalExplosionTarget s.globalExplosion ∧
      (SMsmoothFactors s).partExplosion = smSmooth s.partExplosionTarget s.partExplosion :=
    ⟨rfl, rfl, rfl, rfl, rfl, rfl, rfl, rfl⟩
  unfold SMupdate
  split
  · split
    · have h2 := applyTransitionAnimation_sameUI (SMsmoothFactors s)
      have h3 := applyPartExplosion_sameUI b (applyTransitionAnimation (SMsmoothFactors s))
      obtain ⟨a1, a2, a3, a4, a5, a6, a7, a8⟩ := sameUI_trans h2 h3
      exact ⟨a1.trans hbase.1, a4.trans hbase.2.1, a5.trans hbase.2.2.1,
             a6.trans hbase.2.2.2.1, a7.trans hbase.2.2.2.2.1,
             a8.trans hbase.2.2.2.2.2.1, a2.trans hbase.2.2.2.2.2.2.1,
             a3.trans hbase.2.2.2.2.2.2.2⟩
    · obtain ⟨a1, a2, a3, a4, a5, a6, a7, a8⟩ :=
        applyTransitionAnimation_sameUI (SMsmoothFactors s)
      exact ⟨a1.trans hbase.1, a4.trans hbase.2.1, a5.trans hbase.2.2.1,
             a6.trans hbase.2.2.2.1, a7.trans hbase.2.2.2.2.1,
             a8.trans hbase.2.2.2.2.2.1, a2.trans hbase.2.2.2.2.2.2.1,
             a3.trans hbase.2.2.2.2.2.2.2⟩
  · split
    · obtain ⟨a1, a2, a3, a4, a5, a6, a7, a8⟩ := applyExplosion_sameUI b (SMsmoothFactors s)
      exact ⟨a1.trans hbase.1, a4.trans hbase.2.1, a5.trans hbase.2.2.1,
             a6.trans hbase.2.2.2.1, a7.trans hbase.2.2.2.2.1,
             a8.trans hbase.2.2.2.2.2.1, a2.trans hbase.2.2.2.2.2.2.1,
             a3.trans hbase.2.2.2.2.2.2.2⟩
    · exact hbase

/-- `applyPartViewLayout` never moves a node: only the transition maps and
the transitioning flag change. -/
lemma applyPartViewLayout_transforms (s : SMState) :
    (applyPartViewLayout s).positions = s.positions ∧
    (applyPartViewLayout s).scales = s.scales ∧
    (applyPartViewLayout s).childPositions = s.childPositions := by
  unfold applyPartViewLayout
  cases h : s.selectedMajorPart with
  | none => exact ⟨rfl, rfl, rfl⟩
  | some p => exact ⟨rfl, rfl, rfl⟩

/-- `transitionTo` always lands in the requested state and never touches the
selection, the hover, the index, the factors, the part target, or the node
transforms. -/
lemma transitionTo_proj (ns : SimpleViewState) (s : SMState) :
    (transitionTo ns s).state = ns ∧
    (transitionTo ns s).selectedMajorPart = s.selectedMajorPart ∧
    (transitionTo ns s).hoveredPart = s.hoveredPart ∧
    (transitionTo ns s).currentPartIndex = s.currentPartIndex ∧
    (transitionTo ns s).globalExplosion = s.globalExplosion ∧
    (transitionTo ns s).partExplosion = s.partExplosion ∧
    (transitionTo ns s).partExplosionTarget = s.partExplosionTarget ∧
    (transitionTo ns s).positions = s.positions ∧
    (transitionTo ns s).scales = s.scales ∧
    (transitionTo ns s).childPositions = s.childPositions := by
  unfold transitionTo
  split
  · next heq => exact ⟨heq, rfl, rfl, rfl, rfl, rfl, rfl, rfl, rfl, rfl⟩
  · split
    · next hpv =>
      obtain ⟨a1, a2, a3, a4, a5, a6, a7, a8⟩ := applyPartViewLayout_sameUI
        { s with state := ns, globalExplosionTarget := max s.globalExplosionTarget 1 }
      obtain ⟨m1, m2, m3⟩ := applyPartViewLayout_transforms
        { s with state := ns, globalExplosionTarget := max s.globalExplosionTarget 1 }
      exact ⟨a1, a5, a4, a6, a2, a3, a8, m1, m2, m3⟩
    · exact ⟨rfl, rfl, rfl, rfl, rfl, rfl, rfl, rfl, rfl, rfl⟩

/-- Away from `PartView`, `transitionTo` keeps the global target. -/
lemma transitionTo_nonPartView_target (ns : SimpleViewState) (s : SMState)
    (hnp : ¬ ns = PartView) :
    (transitionTo ns s).globalExplosionTarget = s.globalExplosionTarget := by
  unfold transitionTo
  rw [if_neg hnp]
  split
  · rfl
  · rfl

/-- Full effect of `selectPart` on the scalar state (a chain of record
updates, definitionally). -/
lemma selectPart_proj (b : PartId → Vec3 ℝ) (p : MajorPartId) (s : SMState) :
    (selectPart b p s).state = s.state ∧
    (selectPart b p s).selectedMajorPart = some p ∧
    (selectPart b p s).currentPartIndex = (indexOfMajor p : ℤ) ∧
    (selectPart b p s).globalExplosionTarget = max s.globalExplosionTarget 1 ∧
    (selectPart b p s).partExplosionTarget = 0 ∧
    (selectPart b p s).partExplosion = 0 ∧
    (selectPart b p s).globalExplosion = s.globalExplosion ∧
    (selectPart b p s).hoveredPart = s.hoveredPart ∧
    (selectPart b p s).transitionTargets = (calcTransitionMaps p).1 ∧
    (selectPart b p s).transitionScales = (calcTransitionMaps p).2 ∧
    (selectPart b p s).isTransitioning = true :=
  ⟨rfl, rfl, rfl, rfl, rfl, rfl, rfl, rfl, rfl, rfl, rfl⟩

/-- With no hovered part, `selectHoveredPart` fails and changes nothing. -/
lemma selectHoveredPart_none {s : SMState} (b : PartId → Vec3 ℝ)
    (h : s.hoveredPart = none) : selectHoveredPart b s = (false, s) := by
  unfold selectHoveredPart
  rw [h]

/-- The state written by the selection branch of `selectHoveredPart` before
`transitionTo`. -/
def selectHoveredWrite (p : MajorPartId) (s : SMState) : SMState :=
  { s with
    selectedMajorPart := some p
    currentPartIndex := (indexOfMajor p : ℤ)
    partExplosionTarget := 0
    partExplosion := 0
    globalExplosion := max s.globalExplosion (1/2)
    globalExplosionTarget := max s.globalExplosionTarget 1 }

/-- Hovering a major part with the view exploded (state `Exploded`, or global
factor above 0.1): `selectHoveredPart` succeeds and enters `PartView`. -/
lemma selectHoveredPart_major_exploded {s : SMState} (b : PartId → Vec3 ℝ)
    (p : MajorPartId) (h : s.hoveredPart = some (.major p))
    (hg : s.state = Exploded ∨ s.globalExplosion > 1/10) :
    selectHoveredPart b s
      = (true, applyPartViewLayout (transitionTo PartView (selectHoveredWrite p s))) := by
  unfold selectHoveredPart
  rw [h]
  dsimp only
  rw [if_pos hg, ← h]
  rfl

/-- Hovering a major part in `PartView` with the global factor back at or
below 0.1: `selectHoveredPart` re-runs `selectPart`. -/
lemma selectHoveredPart_major_partView {s : SMState} (b : PartId → Vec3 ℝ)
    (p : MajorPartId) (h : s.hoveredPart = some (.major p))
    (hg : ¬ (s.state = Exploded ∨ s.globalExplosion > 1/10))
    (hpv : s.state = PartView) :
    selectHoveredPart b s = (true, selectPart b p s) := by
  unfold selectHoveredPart
  rw [h]
  dsimp only
  rw [if_neg hg, if_pos hpv]

/-- Hovering a sub part never selects. -/
lemma selectHoveredPart_sub {s : SMState} (b : PartId → Vec3 ℝ) (q : SubPartId)
    (h : s.hoveredPart = some (.sub q)) : selectHoveredPart b s = (false, s) := by
  unfold selectHoveredPart
  rw [h]
  dsimp only
  split
  · rfl
  · split
    · rfl
    · rfl

/-- Hovering a major part outside `PartView` with the view assembled
(global factor not above 0.1): `selectHoveredPart` fails. -/
lemma selectHoveredPart_major_assembled {s : SMState} (b : PartId → Vec3 ℝ)
    (p : MajorPartId) (h : s.hoveredPart = some (.major p))
    (hg : ¬ (s.state = Exploded ∨ s.globalExplosion > 1/10))
    (hpv : ¬ s.state = PartView) :
    selectHoveredPart b s = (false, s) := by
  unfold selectHoveredPart
  rw [h]
  dsimp only
  rw [if_neg hg, if_neg hpv]

/-- When a part is selected, `applyPartViewLayout` installs that part's ring
layout and starts the transition. -/
lemma applyPartViewLayout_of_selected {s : SMState} {p : MajorPartId}
    (h : s.selectedMajorPart = some p) :
    (applyPartViewLayout s).transitionTargets = (calcTransitionMaps p).1 ∧
    (applyPartViewLayout s).transitionScales = (calcTransitionMaps p).2 ∧
    (applyPartViewLayout s).isTransitioning = true := by
  unfold applyPartViewLayout
  rw [h]
  exact ⟨rfl, rfl, rfl⟩

/-- The global target after `transitionTo PartView`. -/
lemma transitionTo_partView_target (s : SMState) :
    (transitionTo PartView s).globalExplosionTarget
      = if s.state = PartView then s.globalExplosionTarget
        else max s.globalExplosionTarget 1 := by
  unfold transitionTo
  split
  · rfl
  · split
    · exact (applyPartViewLayout_sameUI _).2.2.2.2.2.2.1
    · next hno => exact absurd rfl hno

/-- Away from `PartView`, `transitionTo` is just the state-tag write. -/
lemma transitionTo_nonPartView_eq (ns : SimpleViewState) (s : SMState)
    (hne : ¬ s.state = ns) (hnp : ¬ ns = PartView) :
    transitionTo ns s = { s with state := ns } := by
  unfold transitionTo
  rw [if_neg hne, if_neg hnp]

/-- Full effect of `adjustExplosion` outside `PartView`: the global target is
clamp-added and the state auto-switches at the two thresholds; nothing else
moves. -/
lemma adjustExplosion_global (delta : ℚ) (s : SMState) (h : ¬ s.state = PartView) :
    (adjustExplosion delta s).globalExplosionTarget
      = max 0 (min 1 (s.globalExplosionTarget + delta)) ∧
    (adjustExplosion delta s).state
      = (if max 0 (min 1 (s.globalExplosionTarget + delta)) > 1/10 ∧ s.state = Assembled
         then Exploded
         else if max 0 (min 1 (s.globalExplosionTarget + delta)) < 1/20 ∧ s.state = Exploded
         then Assembled
         else s.state) ∧
    (adjustExplosion delta s).globalExplosion = s.globalExplosion ∧
    (adjustExplosion delta s).partExplosion = s.partExplosion ∧
    (adjustExplosion delta s).partExplosionTarget = s.partExplosionTarget := by
  unfold adjustExplosion
  rw [if_neg h]
  split
  · next hX =>
    have hne : ¬ (adjustGlobalTarget delta s).state = Exploded := by
      intro hc
      have : Assembled = Exploded := hX.2.symm.trans hc
      exact absurd this (by decide)
    rw [transitionTo_nonPartView_eq Exploded _ hne (by decide)]
    refine ⟨rfl, ?_, rfl, rfl, rfl⟩
    rw [if_pos ⟨hX.1, hX.2⟩]
  · next hX1 =>
    split
    · next hX =>
      have hne : ¬ (adjustGlobalTarget delta s).state = Assembled := by
        intro hc
        have : Exploded = Assembled := hX.2.symm.trans hc
        exact absurd this (by decide)
      rw [transitionTo_nonPartView_eq Assembled _ hne (by decide)]
      refine ⟨rfl, ?_, rfl, rfl, rfl⟩
      rw [if_neg (by exact hX1), if_pos ⟨hX.1, hX.2⟩]
    · next hX2 =>
      refine ⟨rfl, ?_, rfl, rfl, rfl⟩
      rw [if_neg (by exact hX1), if_neg (by exact hX2)]
      rfl

/-- The view-state invariant of claim C2: a part is focused exactly in the
`PartView` state. -/
def ViewInv (s : SMState) : Prop :=
  s.selectedMajorPart ≠ none ↔ s.state = PartView

lemma viewInv_adjust (delta : ℚ) (s : SMState) (h : ViewInv s) :
    ViewInv (adjustExplosion delta s) := by
  unfold adjustExplosion
  split
  · exact h
  · next hnpv =>
    have hsel : s.selectedMajorPart = none := by
      by_contra hne
      exact hnpv (h.mp hne)
    split
    · obtain ⟨h1, h2, _⟩ := transitionTo_proj Exploded (adjustGlobalTarget delta s)
      unfold ViewInv
      rw [h1, h2]
      unfold adjustGlobalTarget
      simp [hsel]
    · split
      · obtain ⟨h1, h2, _⟩ := transitionTo_proj Assembled (adjustGlobalTarget delta s)
        unfold ViewInv
        rw [h1, h2]
        unfold adjustGlobalTarget
        simp [hsel]
      · exact h

lemma viewInv_update (b : PartId → Vec3 ℝ) (s : SMState) (h : ViewInv s) :
    ViewInv (SMupdate b s) := by
  obtain ⟨h1, _, h3, _⟩ := SMupdate_ui b s
  unfold ViewInv at h ⊢
  rw [h1, h3]
  exact h

lemma viewInv_selectHovered (b : PartId → Vec3 ℝ) (s : SMState) (h : ViewInv s) :
    ViewInv (selectHoveredPart b s).2 := by
  cases hh : s.hoveredPart with
  | none => rw [selectHoveredPart_none b hh]; exact h
  | some hovered =>
    cases hovered with
    | major p =>
      by_cases hg : s.state = Exploded ∨ s.globalExplosion > 1/10
      · rw [selectHoveredPart_major_exploded b p hh hg]
        obtain ⟨t1, t2, _⟩ := transitionTo_proj PartView (selectHoveredWrite p s)
        obtain ⟨a1, _, _, _, a5, _⟩ := applyPartViewLayout_sameUI
          (transitionTo PartView (selectHoveredWrite p s))
        unfold ViewInv
        rw [a1, a5, t1, t2]
        unfold selectHoveredWrite
        simp
      · by_cases hpv : s.state = PartView
        · rw [selectHoveredPart_major_partView b p hh hg hpv]
          obtain ⟨p1, p2, _⟩ := selectPart_proj b p s
          unfold ViewInv
          rw [p1, p2, hpv]
          simp
        · rw [selectHoveredPart_major_assembled b p hh hg hpv]
          exact h
    | sub q =>
      rw [selectHoveredPart_sub b q hh]
      exact h

lemma viewInv_navigateInternal (b : PartId → Vec3 ℝ) (delta : ℤ) (s : SMState)
    (h : ViewInv s) : ViewInv (navigateInternal b delta s) := by
  unfold navigateInternal
  split
  · exact h
  · split
    · exact h
    · split
      · next hpv =>
        obtain ⟨p1, p2, _⟩ := selectPart_proj b (navNewPart delta s)
          { s with currentPartIndex := navNewIndex delta s }
        unfold ViewInv
        rw [p1, p2]
        simp only
        rw [hpv]
        simp
      · exact h

lemma viewInv_goBack (b : PartId → Vec3 ℝ) (s : SMState) (h : ViewInv s) :
    ViewInv (goBack b s) := by
  unfold goBack
  split
  · obtain ⟨t1, t2, _⟩ := transitionTo_proj Assembled (goBackWrite b s)
    have hw : (goBackWrite b s).selectedMajorPart = none := rfl
    unfold ViewInv
    rw [t1, t2, hw]
    simp
  · split
    · next h2 =>
      unfold ViewInv at h ⊢
      simp only
      rw [h2] at h ⊢
      exact h
    · exact h

lemma viewInv_step (b : PartId → Vec3 ℝ) (op : SMOp) (s : SMState) (h : ViewInv s) :
    ViewInv (SMstep b op s) := by
  cases op with
  | adjust d => exact viewInv_adjust d s h
  | tick => exact viewInv_update b s h
  | selectHovered => exact viewInv_selectHovered b s h
  | nav up => exact viewInv_navigateInternal b _ s h
  | navLR left => exact viewInv_navigateInternal b _ s h
  | back => exact viewInv_goBack b s h
  | hover p =>
    show ViewInv (setHoveredPartId p s)
    unfold setHoveredPartId
    split
    · exact h
    · exact h

lemma viewInv_run (b : PartId → Vec3 ℝ) (ops : List SMOp) :
    ∀ s : SMState, ViewInv s → ViewInv (SMrun b ops s) := by
  induction ops with
  | nil => intro s h; exact h
  | cons op ops ih =>
    intro s h
    exact ih (SMstep b op s) (viewInv_step b op s h)

/-- C2 (confirmed).  Across every reachable sequence of public operations
(adjust-explosion, select-hovered-part, navigate/cycle, go-back, tick,
hover), the focused part is non-null exactly when the state tag is the
part-focus state `PartView`. -/
theorem C2_view_state_invariant (b : PartId → Vec3 ℝ) (ops : List SMOp) :
    (SMrun b ops (initSM b)).selectedMajorPart ≠ none
      ↔ (SMrun b ops (initSM b)).state = PartView := by
  have hinit : ViewInv (initSM b) := by
    unfold ViewInv initSM
    simp
  exact viewInv_run b ops (initSM b) hinit

/-! ### Claims C4 and C5 -/

/-- A rest pose placing every node at the origin (used for concrete
witnesses). -/
noncomputable def zeroBase : PartId → Vec3 ℝ := fun _ => ⟨0, 0, 0⟩

/-- C4 (confirmed).  Selecting a hovered major part while the global factor
is above 0.1, from `Exploded` or `Assembled` (with the global target within
its clamped range), enters `PartView` focused on that part, forces the global
target to 1, resets the part factor (current and target) to 0, computes the
ring layout, and returns `true`. -/
theorem C4_selection_enters_part_focus (b : PartId → Vec3 ℝ) (s : SMState)
    (p : MajorPartId)
    (hhov : s.hoveredPart = some (.major p))
    (hstate : s.state = Exploded ∨ s.state = Assembled)
    (hfac : s.globalExplosion > 1/10)
    (htgt : s.globalExplosionTarget ≤ 1) :
    (selectHoveredPart b s).1 = true ∧
    (selectHoveredPart b s).2.state = PartView ∧
    (selectHoveredPart b s).2.selectedMajorPart = some p ∧
    (selectHoveredPart b s).2.globalExplosionTarget = 1 ∧
    (selectHoveredPart b s).2.partExplosion = 0 ∧
    (selectHoveredPart b s).2.partExplosionTarget = 0 ∧
    (selectHoveredPart b s).2.transitionTargets = (calcTransitionMaps p).1 ∧
    (selectHoveredPart b s).2.transitionScales = (calcTransitionMaps p).2 ∧
    (selectHoveredPart b s).2.isTransitioning = true := by
  have hguard : s.state = Exploded ∨ s.globalExplosion > 1/10 := Or.inr hfac
  rw [selectHoveredPart_major_exploded b p hhov hguard]
  dsimp only
  obtain ⟨t1, t2, t3, t4, t5, t6, t7, _⟩ :=
    transitionTo_proj PartView (selectHoveredWrite p s)
  obtain ⟨a1, a2, a3, a4, a5, a6, a7, a8⟩ := applyPartViewLayout_sameUI
    (transitionTo PartView (selectHoveredWrite p s))
  have hsel : (transitionTo PartView (selectHoveredWrite p s)).selectedMajorPart = some p := by
    rw [t2]; rfl
  obtain ⟨m1, m2, m3⟩ := applyPartViewLayout_of_selected hsel
  refine ⟨rfl, ?_, ?_, ?_, ?_, ?_, m1, m2, m3⟩
  · rw [a1, t1]
  · rw [a5, hsel]
  · rw [a7, transitionTo_partView_target (selectHoveredWrite p s)]
    have hWs : (selectHoveredWrite p s).state = s.state := rfl
    rw [hWs]
    have hnpv : ¬ s.state = PartView := by
      rcases hstate with h | h <;> (rw [h]; decide)
    rw [if_neg hnpv]
    show max (max s.globalExplosionTarget 1) 1 = 1
    rw [max_eq_right htgt, max_self]
  · rw [a3, t6]; rfl
  · rw [a8, t7]; rfl

/-- A concrete exploded state hovering the left arm. -/
noncomputable def sampleExploded : SMState :=
  { initSM zeroBase with
    state := Exploded
    hoveredPart := some (.major Leftarm)
    globalExplosion := 1
    globalExplosionTarget := 1 }

/-- Witness for C4: from a fully exploded state hovering `Leftarm`, the
selection succeeds with all the postconditions of C4. -/
theorem C4_witness :
    (selectHoveredPart zeroBase sampleExploded).1 = true ∧
    (selectHoveredPart zeroBase sampleExploded).2.state = PartView ∧
    (selectHoveredPart zeroBase sampleExploded).2.selectedMajorPart = some Leftarm ∧
    (selectHoveredPart zeroBase sampleExploded).2.globalExplosionTarget = 1 ∧
    (selectHoveredPart zeroBase sampleExploded).2.partExplosion = 0 ∧
    (selectHoveredPart zeroBase sampleExploded).2.partExplosionTarget = 0 ∧
    (selectHoveredPart zeroBase sampleExploded).2.transitionTargets
      = (calcTransitionMaps Leftarm).1 ∧
    (selectHoveredPart zeroBase sampleExploded).2.transitionScales
      = (calcTransitionMaps Leftarm).2 ∧
    (selectHoveredPart zeroBase sampleExploded).2.isTransitioning = true :=
  C4_selection_enters_part_focus zeroBase sampleExploded Leftarm rfl (Or.inl rfl)
    (by norm_num [sampleExploded, initSM]) (by norm_num [sampleExploded, initSM])

/-- C5 (confirmed).  `goBack()` from `PartView` returns to `Assembled`,
clears the focused part, resets every major part's position to its rest pose
and its scale to 1, collapses the part factor (current and target) to 0, and
collapses the global target to 0. -/
theorem C5_go_back_postcondition (b : PartId → Vec3 ℝ) (s : SMState)
    (hpv : s.state = PartView) :
    (goBack b s).state = Assembled ∧
    (goBack b s).selectedMajorPart = none ∧
    (∀ p : MajorPartId, (goBack b s).positions p = b (.major p)) ∧
    (∀ p : MajorPartId, (goBack b s).scales p = 1) ∧
    (goBack b s).partExplosion = 0 ∧
    (goBack b s).partExplosionTarget = 0 ∧
    (goBack b s).globalExplosionTarget = 0 := by
  unfold goBack
  rw [if_pos hpv]
  obtain ⟨t1, t2, _, _, _, t6, t7, t8, t9, _⟩ := transitionTo_proj Assembled (goBackWrite b s)
  have tT := transitionTo_nonPartView_target Assembled (goBackWrite b s) (by decide)
  refine ⟨t1, ?_, ?_, ?_, ?_, ?_, ?_⟩
  · rw [t2]; rfl
  · intro p; rw [t8]; rfl
  · intro p; rw [t9]; rfl
  · rw [t6]; rfl
  · rw [t7]; rfl
  · rw [tT]; rfl

/-- A concrete `PartView` state focused on the left arm. -/
noncomputable def samplePartView : SMState :=
  { initSM zeroBase with
    state := PartView
    selectedMajorPart := some Leftarm
    globalExplosion := 1
    globalExplosionTarget := 1 }

/-- Witness for C5: go-back from the concrete `PartView` state. -/
theorem C5_witness :
    (goBack zeroBase samplePartView).state = Assembled ∧
    (goBack zeroBase samplePartView).selectedMajorPart = none ∧
    (∀ p : MajorPartId, (goBack zeroBase samplePartView).positions p = zeroBase (.major p)) ∧
    (∀ p : MajorPartId, (goBack zeroBase samplePartView).scales p = 1) ∧
    (goBack zeroBase samplePartView).partExplosion = 0 ∧
    (goBack zeroBase samplePartView).partExplosionTarget = 0 ∧
    (goBack zeroBase samplePartView).globalExplosionTarget = 0 :=
  C5_go_back_postcondition zeroBase samplePartView rfl

/-! ### Claim C6: the clamp invariant -/

lemma clamp01_nonneg (x : ℚ) : 0 ≤ max 0 (min 1 x) := le_max_left _ _

lemma clamp01_le_one (x : ℚ) : max 0 (min 1 x) ≤ 1 :=
  max_le (by norm_num) (min_le_left _ _)

lemma smSmooth_mem {t c : ℚ} (hc0 : 0 ≤ c) (hc1 : c ≤ 1) (ht0 : 0 ≤ t) (ht1 : t ≤ 1) :
    0 ≤ smSmooth t c ∧ smSmooth t c ≤ 1 := by
  unfold smSmooth
  split <;> constructor <;> linarith

/-- All four explosion quantities lie in [0, 1]. -/
def FactorInv (s : SMState) : Prop :=
  0 ≤ s.globalExplosion ∧ s.globalExplosion ≤ 1 ∧
  0 ≤ s.partExplosion ∧ s.partExplosion ≤ 1 ∧
  0 ≤ s.globalExplosionTarget ∧ s.globalExplosionTarget ≤ 1 ∧
  0 ≤ s.partExplosionTarget ∧ s.partExplosionTarget ≤ 1

lemma factorInv_adjust (delta : ℚ) (s : SMState) (h : FactorInv s) :
    FactorInv (adjustExplosion delta s) := by
  obtain ⟨h1, h2, h3, h4, h5, h6, h7, h8⟩ := h
  unfold adjustExplosion
  split
  · exact ⟨h1, h2, h3, h4, h5, h6, clamp01_nonneg _, clamp01_le_one _⟩
  · have hW : FactorInv (adjustGlobalTarget delta s) :=
      ⟨h1, h2, h3, h4, clamp01_nonneg _, clamp01_le_one _, h7, h8⟩
    obtain ⟨w1, w2, w3, w4, w5, w6, w7, w8⟩ := hW
    split
    · obtain ⟨_, _, _, _, t5, t6, t7, _⟩ := transitionTo_proj Exploded (adjustGlobalTarget delta s)
      have tT := transitionTo_nonPartView_target Exploded
        (adjustGlobalTarget delta s) (by decide)
      rw [FactorInv, t5, t6, t7, tT]
      exact ⟨w1, w2, w3, w4, w5, w6, w7, w8⟩
    · split
      · obtain ⟨_, _, _, _, t5, t6, t7, _⟩ := transitionTo_proj Assembled (adjustGlobalTarget delta s)
        have tT := transitionTo_nonPartView_target Assembled
          (adjustGlobalTarget delta s) (by decide)
        rw [FactorInv, t5, t6, t7, tT]
        exact ⟨w1, w2, w3, w4, w5, w6, w7, w8⟩
      · exact ⟨w1, w2, w3, w4, w5, w6, w7, w8⟩

lemma factorInv_update (b : PartId → Vec3 ℝ) (s : SMState) (h : FactorInv s) :
    FactorInv (SMupdate b s) := by
  obtain ⟨h1, h2, h3, h4, h5, h6, h7, h8⟩ := h
  obtain ⟨_, _, _, _, u5, u6, u7, u8⟩ := SMupdate_ui b s
  obtain ⟨g1, g2⟩ := smSmooth_mem h1 h2 h5 h6
  obtain ⟨p1, p2⟩ := smSmooth_mem h3 h4 h7 h8
  rw [FactorInv, u5, u6, u7, u8]
  exact ⟨g1, g2, p1, p2, h5, h6, h7, h8⟩

lemma factorInv_selectPart (b : PartId → Vec3 ℝ) (p : MajorPartId) (s : SMState)
    (h : FactorInv s) : FactorInv (selectPart b p s) := by
  obtain ⟨h1, h2, h3, h4, h5, h6, h7, h8⟩ := h
  obtain ⟨_, _, _, p4, p5, p6, p7, _⟩ := selectPart_proj b p s
  rw [FactorInv, p4, p5, p6, p7]
  refine ⟨h1, h2, by norm_num, by norm_num,
    le_trans (by norm_num) (le_max_right _ _), max_le h6 le_rfl, by norm_num, by norm_num⟩

lemma factorInv_selectHovered (b : PartId → Vec3 ℝ) (s : SMState) (h : FactorInv s) :
    FactorInv (selectHoveredPart b s).2 := by
  obtain ⟨h1, h2, h3, h4, h5, h6, h7, h8⟩ := h
  cases hh : s.hoveredPart with
  | none => rw [selectHoveredPart_none b hh]; exact ⟨h1, h2, h3, h4, h5, h6, h7, h8⟩
  | some hovered =>
    cases hovered with
    | major p =>
      by_cases hg : s.state = Exploded ∨ s.globalExplosion > 1/10
      · rw [selectHoveredPart_major_exploded b p hh hg]
        dsimp only
        obtain ⟨a1, a2, a3, _, _, _, a7, a8⟩ := applyPartViewLayout_sameUI
          (transitionTo PartView (selectHoveredWrite p s))
        obtain ⟨_, _, _, _, t5, t6, t7, _⟩ :=
          transitionTo_proj PartView (selectHoveredWrite p s)
        have tT := transitionTo_partView_target (selectHoveredWrite p s)
        rw [FactorInv, a2, a3, a7, a8, t5, t6, t7, tT]
        have hWgE : (selectHoveredWrite p s).globalExplosion = max s.globalExplosion (1/2) := rfl
        have hWgT : (selectHoveredWrite p s).globalExplosionTarget
          = max s.globalExplosionTarget 1 := rfl
        constructor
        · rw [hWgE]; exact le_trans (by norm_num) (le_max_right _ _)
        constructor
        · rw [hWgE]; exact max_le h2 (by norm_num)
        refine ⟨le_refl 0, zero_le_one, ?_, ?_, le_refl 0, zero_le_one⟩
        · split
          · rw [hWgT]; exact le_trans (by norm_num) (le_max_right _ _)
          · exact le_trans (by norm_num) (le_max_right _ _)
        · split
          · rw [hWgT]; exact max_le h6 le_rfl
          · rw [hWgT]; exact max_le (max_le h6 le_rfl) le_rfl
      · by_cases hpv : s.state = PartView
        · rw [selectHoveredPart_major_partView b p hh hg hpv]
          exact factorInv_selectPart b p s ⟨h1, h2, h3, h4, h5, h6, h7, h8⟩
        · rw [selectHoveredPart_major_assembled b p hh hg hpv]
          exact ⟨h1, h2, h3, h4, h5, h6, h7, h8⟩
    | sub q =>
      rw [selectHoveredPart_sub b q hh]
      exact ⟨h1, h2, h3, h4, h5, h6, h7, h8⟩

lemma factorInv_navigateInternal (b : PartId → Vec3 ℝ) (delta : ℤ) (s : SMState)
    (h : FactorInv s) : FactorInv (navigateInternal b delta s) := by
  unfold navigateInternal
  split
  · exact h
  · split
    · exact h
    · split
      · exact factorInv_selectPart b (navNewPart delta s) _ h
      · exact h

lemma factorInv_goBack (b : PartId → Vec3 ℝ) (s : SMState) (h : FactorInv s) :
    FactorInv (goBack b s) := by
  obtain ⟨h1, h2, h3, h4, h5, h6, h7, h8⟩ := h
  unfold goBack
  split
  · obtain ⟨_, _, _, _, t5, t6, t7, _⟩ := transitionTo_proj Assembled (goBackWrite b s)
    have tT := transitionTo_nonPartView_target Assembled (goBackWrite b s) (by decide)
    rw [FactorInv, t5, t6, t7, tT]
    exact ⟨h1, h2, le_refl 0, zero_le_one, le_refl 0, zero_le_one, le_refl 0, zero_le_one⟩
  · split
    · exact ⟨h1, h2, h3, h4, le_refl 0, zero_le_one, h7, h8⟩
    · exact ⟨h1, h2, h3, h4, h5, h6, h7, h8⟩

lemma factorInv_step (b : PartId → Vec3 ℝ) (op : SMOp) (s : SMState) (h : FactorInv s) :
    FactorInv (SMstep b op s) := by
  cases op with
  | adjust d => exact factorInv_adjust d s h
  | tick => exact factorInv_update b s h
  | selectHovered => exact factorInv_selectHovered b s h
  | nav up => exact factorInv_navigateInternal b _ s h
  | navLR left => exact factorInv_navigateInternal b _ s h
  | back => exact factorInv_goBack b s h
  | hover p =>
    show FactorInv (setHoveredPartId p s)
    unfold setHoveredPartId
    split
    · exact h
    · exact h

lemma factorInv_run (b : PartId → Vec3 ℝ) (ops : List SMOp) :
    ∀ s : SMState, FactorInv s → FactorInv (SMrun b ops s) := by
  induction ops with
  | nil => intro s h; exact h
  | cons op ops ih =>
    intro s h
    exact ih (SMstep b op s) (factorInv_step b op s h)

lemma factorInv_init (b : PartId → Vec3 ℝ) : FactorInv (initSM b) := by
  unfold FactorInv initSM
  norm_num

/-- C6 (confirmed).  For every delta and every reachable state, after
`adjustExplosion(delta)` both explosion-factor targets (in particular the
affected one) lie in [0,1], and the current factors they drive stay in [0,1]
through the next `update()`; the adjustment is clamped, never rejected (the
operation is total). -/
theorem C6_clamp_invariant (b : PartId → Vec3 ℝ) (ops : List SMOp) (delta : ℚ) :
    0 ≤ (adjustExplosion delta (SMrun b ops (initSM b))).globalExplosionTarget ∧
    (adjustExplosion delta (SMrun b ops (initSM b))).globalExplosionTarget ≤ 1 ∧
    0 ≤ (adjustExplosion delta (SMrun b ops (initSM b))).partExplosionTarget ∧
    (adjustExplosion delta (SMrun b ops (initSM b))).partExplosionTarget ≤ 1 ∧
    0 ≤ (SMupdate b (adjustExplosion delta (SMrun b ops (initSM b)))).globalExplosion ∧
    (SMupdate b (adjustExplosion delta (SMrun b ops (initSM b)))).globalExplosion ≤ 1 ∧
    0 ≤ (SMupdate b (adjustExplosion delta (SMrun b ops (initSM b)))).partExplosion ∧
    (SMupdate b (adjustExplosion delta (SMrun b ops (initSM b)))).partExplosion ≤ 1 := by
  have hreach := factorInv_run b ops (initSM b) (factorInv_init b)
  have hadj := factorInv_adjust delta _ hreach
  have hupd := factorInv_update b _ hadj
  exact ⟨hadj.2.2.2.2.1, hadj.2.2.2.2.2.1, hadj.2.2.2.2.2.2.1, hadj.2.2.2.2.2.2.2,
         hupd.1, hupd.2.1, hupd.2.2.1, hupd.2.2.2.1⟩

/-! ### Claim C7: threshold transitions and the 0.2 scenario -/

lemma smSmooth_bound (t c : ℚ) :
    |smSmooth t c - t| ≤ max (1/1000) ((9/10) * |c - t|) := by
  unfold smSmooth
  split
  · have heq : c + (t - c) * (1/10) - t = (9/10) * (c - t) := by ring
    rw [heq, abs_mul, abs_of_pos (show (0:ℚ) < 9/10 by norm_num)]
    exact le_max_right _ _
  · next hle =>
    push_neg at hle
    exact le_trans hle (le_max_left _ _)

lemma smSmooth_iter_bound (t : ℚ) : ∀ (n : ℕ) (c : ℚ),
    |(fun x => smSmooth t x)^[n] c - t| ≤ max (1/1000) ((9/10)^n * |c - t|) := by
  intro n
  induction n with
  | zero =>
    intro c
    simp
  | succ n ih =>
    intro c
    rw [Function.iterate_succ_apply']
    refine le_trans (smSmooth_bound t _) (max_le (le_max_left _ _) ?_)
    have h9 : (9/10:ℚ) * |(fun x => smSmooth t x)^[n] c - t|
        ≤ (9/10) * max (1/1000) ((9/10)^n * |c - t|) :=
      mul_le_mul_of_nonneg_left (ih c) (by norm_num)
    rw [mul_max_of_nonneg _ _ (show (0:ℚ) ≤ 9/10 by norm_num)] at h9
    refine le_trans h9 (max_le ?_ ?_)
    · exact le_trans (by norm_num) (le_max_left (1/1000 : ℚ) ((9/10)^(n+1) * |c - t|))
    · exact le_trans (le_of_eq (by ring))
        (le_max_right (1/1000 : ℚ) ((9/10)^(n+1) * |c - t|))

lemma SMupdate_iter_global (b : PartId → Vec3 ℝ) : ∀ (n : ℕ) (s : SMState),
    ((SMupdate b)^[n] s).globalExplosion
      = (fun x => smSmooth s.globalExplosionTarget x)^[n] s.globalExplosion ∧
    ((SMupdate b)^[n] s).globalExplosionTarget = s.globalExplosionTarget := by
  intro n
  induction n with
  | zero => intro s; exact ⟨rfl, rfl⟩
  | succ n ih =>
    intro s
    obtain ⟨i1, i2⟩ := ih (SMupdate b s)
    obtain ⟨_, _, _, _, u5, _, u7, _⟩ := SMupdate_ui b s
    rw [Function.iterate_succ_apply, Function.iterate_succ_apply]
    exact ⟨by rw [i1, u5, u7], by rw [i2, u5]⟩

/-- C7 (confirmed).  In `Assembled`, an adjustment that raises the global
target above 0.1 switches to `Exploded`; in `Exploded`, one that lowers it
below 0.05 switches back to `Assembled`.  Scenario: from the initial state, a
single `adjustExplosion(0.2)` yields `Exploded` with target 0.2, and after 60
ticks the current global factor is within 0.001 of 0.2. -/
theorem C7_threshold_transitions (b : PartId → Vec3 ℝ) (s : SMState) (delta : ℚ) :
    (s.state = Assembled → (adjustExplosion delta s).globalExplosionTarget > 1/10 →
        (adjustExplosion delta s).state = Exploded) ∧
    (s.state = Exploded → (adjustExplosion delta s).globalExplosionTarget < 1/20 →
        (adjustExplosion delta s).state = Assembled) ∧
    (adjustExplosion (1/5) (initSM b)).state = Exploded ∧
    (adjustExplosion (1/5) (initSM b)).globalExplosionTarget = 1/5 ∧
    |((SMupdate b)^[60] (adjustExplosion (1/5) (initSM b))).globalExplosion - 1/5|
      ≤ 1/1000 := by
  have hInit : ¬ (initSM b).state = PartView := by
    intro hc
    exact (by decide : ¬ Assembled = PartView) hc
  obtain ⟨g1, g2, g3, _⟩ := adjustExplosion_global (1/5) (initSM b) hInit
  have hval : max 0 (min 1 ((initSM b).globalExplosionTarget + 1/5)) = 1/5 := by
    norm_num [initSM]
  have hstate : (adjustExplosion (1/5) (initSM b)).state = Exploded := by
    rw [g2, hval, if_pos ⟨by norm_num, rfl⟩]
  have htgt : (adjustExplosion (1/5) (initSM b)).globalExplosionTarget = 1/5 :=
    g1.trans hval
  refine ⟨?_, ?_, hstate, htgt, ?_⟩
  · intro hA hgt
    have hnpv : ¬ s.state = PartView := by
      rw [hA]; decide
    obtain ⟨a1, a2, _⟩ := adjustExplosion_global delta s hnpv
    rw [a1] at hgt
    rw [a2, if_pos ⟨hgt, hA⟩]
  · intro hE hlt
    have hnpv : ¬ s.state = PartView := by
      rw [hE]; decide
    obtain ⟨a1, a2, _⟩ := adjustExplosion_global delta s hnpv
    rw [a1] at hlt
    have hno1 : ¬ (max 0 (min 1 (s.globalExplosionTarget + delta)) > 1/10
        ∧ s.state = Assembled) := by
      rintro ⟨_, hc⟩
      exact absurd (hE.symm.trans hc) (by decide)
    rw [a2, if_neg hno1, if_pos ⟨hlt, hE⟩]
  · obtain ⟨i1, _⟩ := SMupdate_iter_global b 60 (adjustExplosion (1/5) (initSM b))
    have hgE : (adjustExplosion (1/5) (initSM b)).globalExplosion = 0 := by
      rw [g3]; rfl
    rw [i1, htgt, hgE]
    have habs : |(0:ℚ) - 1/5| = 1/5 := by
      rw [show (0:ℚ) - 1/5 = -(1/5) by ring, abs_neg, abs_of_pos (by norm_num)]
    refine le_trans (smSmooth_iter_bound (1/5) 60 0) (max_le le_rfl ?_)
    rw [habs]
    norm_num

/-- A concrete `Exploded` state with factor and target 0.2. -/
noncomputable def sampleExplodedTarget : SMState :=
  { initSM zeroBase with
    state := Exploded
    globalExplosion := 1/5
    globalExplosionTarget := 1/5 }

/-- Witness for C7: the two threshold implications instantiated at the
concrete initial state (discharging their hypotheses), together with the
0.2-scenario facts. -/
theorem C7_witness :
    (adjustExplosion (1/5) (initSM zeroBase)).state = Exploded ∧
    (adjustExplosion (1/5) (initSM zeroBase)).globalExplosionTarget = 1/5 ∧
    (adjustExplosion (-1) (sampleExplodedTarget)).state = Assembled ∧
    |((SMupdate zeroBase)^[60] (adjustExplosion (1/5) (initSM zeroBase))).globalExplosion
      - 1/5| ≤ 1/1000 := by
  have h := C7_threshold_transitions zeroBase (initSM zeroBase) (1/5)
  have h2 := C7_threshold_transitions zeroBase sampleExplodedTarget (-1)
  refine ⟨h.1 rfl ?_, h.2.2.2.1, h2.2.1 rfl ?_, h.2.2.2.2⟩
  · rw [h.2.2.2.1]; norm_num
  · obtain ⟨a1, _⟩ := adjustExplosion_global (-1) sampleExplodedTarget
      (by intro hc; exact absurd hc (by decide))
    rw [a1]
    norm_num [sampleExplodedTarget, initSM]

/-! ### Claim C1, the refuted half: `SimpleStateMachine.update` never snaps -/

lemma smSmooth_self (t : ℚ) : smSmooth t t = t := by
  unfold smSmooth
  rw [if_neg (by simp)]

lemma smSmooth_iter_self (t : ℚ) : ∀ n : ℕ, (fun x => smSmooth t x)^[n] t = t := by
  intro n
  induction n with
  | zero => rfl
  | succ n ih => rw [Function.iterate_succ_apply', ih]; exact smSmooth_self t

/-- When both factors are already within 0.001 of their targets and the
transition animation is not running, `update` is a strict no-op. -/
lemma SMupdate_stall (b : PartId → Vec3 ℝ) (s : SMState)
    (hg : ¬ |s.globalExplosion - s.globalExplosionTarget| > 1/1000)
    (hp : ¬ |s.partExplosion - s.partExplosionTarget| > 1/1000)
    (hnpv : ¬ (s.state = PartView ∧ s.isTransitioning = true)) :
    SMupdate b s = s := by
  have hsm : SMsmoothFactors s = s := by
    unfold SMsmoothFactors smSmooth
    rw [if_neg hg, if_neg hp]
  unfold SMupdate
  rw [hsm, if_neg hnpv, if_neg (not_or.mpr ⟨hg, hp⟩)]

lemma SMupdate_iter_more (b : PartId → Vec3 ℝ) : ∀ (n : ℕ) (s : SMState),
    ((SMupdate b)^[n] s).state = s.state ∧
    ((SMupdate b)^[n] s).partExplosionTarget = s.partExplosionTarget ∧
    ((SMupdate b)^[n] s).partExplosion
      = (fun x => smSmooth s.partExplosionTarget x)^[n] s.partExplosion := by
  intro n
  induction n with
  | zero => intro s; exact ⟨rfl, rfl, rfl⟩
  | succ n ih =>
    intro s
    obtain ⟨i1, i2, i3⟩ := ih (SMupdate b s)
    obtain ⟨u1, _, _, _, _, u6, _, u8⟩ := SMupdate_ui b s
    rw [Function.iterate_succ_apply, Function.iterate_succ_apply]
    exact ⟨by rw [i1, u1], by rw [i2, u6], by rw [i3, u8, u6]⟩

/-- Closed form of the `SimpleStateMachine.update` smoothing from 0 toward a
fixed target 1: while the gap still exceeds 0.001 (which holds up to tick
66), the current factor is `1 - (9/10)^n`. -/
lemma smSmooth_one_closed_form : ∀ n : ℕ, n ≤ 66 →
    (fun x => smSmooth 1 x)^[n] 0 = 1 - (9/10)^n := by
  intro n
  induction n with
  | zero => intro _; simp
  | succ n ih =>
    intro hn
    rw [Function.iterate_succ_apply', ih (by omega)]
    have hgap : |1 - (9/10:ℚ)^n - 1| = (9/10)^n := by
      rw [show (1:ℚ) - (9/10)^n - 1 = -((9/10)^n) by ring, abs_neg,
        abs_of_pos (by positivity)]
    have hcond : |1 - (9/10:ℚ)^n - 1| > 1/1000 := by
      rw [hgap]
      have h65 : ((9:ℚ)/10)^65 ≤ (9/10)^n :=
        pow_le_pow_of_le_one (by norm_num) (by norm_num) (by omega)
      have hc : (1/1000:ℚ) < (9/10)^65 := by norm_num
      linarith
    show smSmooth 1 (1 - (9/10)^n) = 1 - (9/10)^(n+1)
    unfold smSmooth
    rw [if_pos hcond]
    ring

/-- The state after `adjustExplosion(1)` from the initial state: `Exploded`
with global target 1 and current factor 0. -/
noncomputable def c1Start : SMState := adjustExplosion 1 (initSM zeroBase)

/-- The state 66 ticks later, where the smoothing has stalled. -/
noncomputable def c1Stalled : SMState := (SMupdate zeroBase)^[66] c1Start

lemma c1Start_facts :
    c1Start.globalExplosionTarget = 1 ∧ c1Start.globalExplosion = 0 ∧
    c1Start.state = Exploded ∧ c1Start.partExplosion = 0 ∧
    c1Start.partExplosionTarget = 0 := by
  have hInit : ¬ (initSM zeroBase).state = PartView := by
    intro hc
    exact (by decide : ¬ Assembled = PartView) hc
  obtain ⟨g1, g2, g3, g4, g5⟩ := adjustExplosion_global 1 (initSM zeroBase) hInit
  have hval : max 0 (min 1 ((initSM zeroBase).globalExplosionTarget + 1)) = 1 := by
    norm_num [initSM]
  refine ⟨g1.trans hval, g3.trans rfl, ?_, g4.trans rfl, g5.trans rfl⟩
  show (adjustExplosion 1 (initSM zeroBase)).state = Exploded
  rw [g2, hval, if_pos ⟨by norm_num, rfl⟩]

/-- C1 counterexample.  The claim asserts that after a target change and
sufficiently many `update()` calls the current factor becomes *exactly* the
target.  For `SimpleStateMachine.update` this is false: set the global target
to 1 from the initial state; after 66 ticks the current global factor is
`1 - (9/10)^66 ≠ 1`, yet the state is a strict fixed point of `update`, so no
number of further ticks ever closes the remaining gap (the smoothing has no
snap and stops moving once the gap is at most 0.001). -/
theorem C1_counterexample :
    c1Stalled.globalExplosion ≠ c1Stalled.globalExplosionTarget ∧
    SMupdate zeroBase c1Stalled = c1Stalled := by
  obtain ⟨hT, hE, hS, hpE, hpT⟩ := c1Start_facts
  obtain ⟨ig, it⟩ := SMupdate_iter_global zeroBase 66 c1Start
  obtain ⟨m1, m2, m3⟩ := SMupdate_iter_more zeroBase 66 c1Start
  have hgE : c1Stalled.globalExplosion = 1 - (9/10)^66 := by
    show ((SMupdate zeroBase)^[66] c1Start).globalExplosion = 1 - (9/10)^66
    rw [ig, hT, hE]
    exact smSmooth_one_closed_form 66 le_rfl
  have hgT : c1Stalled.globalExplosionTarget = 1 := by
    show ((SMupdate zeroBase)^[66] c1Start).globalExplosionTarget = 1
    rw [it, hT]
  have hsE : c1Stalled.state = Exploded := by
    show ((SMupdate zeroBase)^[66] c1Start).state = Exploded
    rw [m1, hS]
  have hsPE : c1Stalled.partExplosion = 0 := by
    show ((SMupdate zeroBase)^[66] c1Start).partExplosion = 0
    rw [m3, hpT, hpE]
    exact smSmooth_iter_self 0 66
  have hsPT : c1Stalled.partExplosionTarget = 0 := by
    show ((SMupdate zeroBase)^[66] c1Start).partExplosionTarget = 0
    rw [m2, hpT]
  constructor
  · rw [hgE, hgT]
    norm_num
  · refine SMupdate_stall zeroBase c1Stalled ?_ ?_ ?_
    · rw [hgE, hgT]
      rw [show (1:ℚ) - (9/10)^66 - 1 = -((9/10)^66) by ring, abs_neg,
        abs_of_pos (by positivity)]
      norm_num
    · rw [hsPE, hsPT]
      norm_num
    · rintro ⟨hc, _⟩
      rw [hsE] at hc
      exact (by decide : ¬ Exploded = PartView) hc

/-! ### Claim C3: slot stability and ring geometry -/

/-- C3 (amended).  The secondary-ring slot of a non-focused major part is its
fixed index in the major-parts list, independent of which part is focused;
non-focused parts sit at their slot plus their sub-ring offset at scale 0.7,
the focused part at the primary-ring center plus its main-ring offset at
scale 1.0.  Slots are evenly spaced by 2π/7 on the circle of radius 4 in the
plane z = −2 — but slot 0 sits at the *bottom* of that circle (angle −π/2 in
the y-up world frame), not at the top as the claim states. -/
theorem C3_slot_stability (a b p : MajorPartId) (ha : p ≠ a) (hb : p ≠ b) :
    (calcTransitionMaps a).1 p = (calcTransitionMaps b).1 p ∧
    (calcTransitionMaps a).1 p
      = some ((subRingSlot (indexOfMajor p)).add (partPositionInSubRing p).toReal) ∧
    (calcTransitionMaps a).2 p = some ((7:ℝ)/10) ∧
    (calcTransitionMaps a).1 a
      = some ((Vec3.add mainRingCenter (partPositionInMainRing a)).toReal) ∧
    (calcTransitionMaps a).2 a = some (1:ℝ) ∧
    (∀ i : ℕ, (subRingSlot i).x ^ 2 + (subRingSlot i).y ^ 2 = 16
      ∧ (subRingSlot i).z = -2) ∧
    (∀ i : ℕ, slotAngle (i+1) - slotAngle i = 2 * Real.pi / 7) ∧
    subRingSlot 0 = ⟨0, -4, -2⟩ := by
  obtain ⟨o1, o2⟩ := calcMaps_other ha
  obtain ⟨o1', _⟩ := calcMaps_other hb
  obtain ⟨f1, f2⟩ := calcMaps_focused a
  refine ⟨o1.trans o1'.symm, o1, o2, f1, f2, ?_, ?_, ?_⟩
  · intro i
    constructor
    · show (Real.cos (slotAngle i) * 4) ^ 2 + (Real.sin (slotAngle i) * 4) ^ 2 = 16
      have h := Real.sin_sq_add_cos_sq (slotAngle i)
      nlinarith [h]
    · rfl
  · intro i
    unfold slotAngle
    push_cast
    ring
  · have hang : slotAngle 0 = -(Real.pi / 2) := by
      unfold slotAngle
      norm_num
    unfold subRingSlot
    rw [hang, Real.cos_neg, Real.cos_pi_div_two, Real.sin_neg, Real.sin_pi_div_two]
    norm_num [Vec3.mk.injEq]

/-- Witness for C3: `Leftarm` keeps slot 3 whether `Head` or `neck` is
focused. -/
theorem C3_witness :
    (calcTransitionMaps Head).1 Leftarm = (calcTransitionMaps neck).1 Leftarm ∧
    (calcTransitionMaps Head).1 Leftarm
      = some ((subRingSlot (indexOfMajor Leftarm)).add
          (partPositionInSubRing Leftarm).toReal) ∧
    (calcTransitionMaps Head).2 Leftarm = some ((7:ℝ)/10) ∧
    (calcTransitionMaps Head).1 Head
      = some ((Vec3.add mainRingCenter (partPositionInMainRing Head)).toReal) ∧
    (calcTransitionMaps Head).2 Head = some (1:ℝ) ∧
    (∀ i : ℕ, (subRingSlot i).x ^ 2 + (subRingSlot i).y ^ 2 = 16
      ∧ (subRingSlot i).z = -2) ∧
    (∀ i : ℕ, slotAngle (i+1) - slotAngle i = 2 * Real.pi / 7) ∧
    subRingSlot 0 = ⟨0, -4, -2⟩ :=
  C3_slot_stability Head neck Leftarm (by decide) (by decide)

/-- C3 counterexample.  The claim says the slot circle starts at the top;
in the model's y-up world coordinates slot 0 has y = −4 (the bottom of the
radius-4 circle) and, for instance, slot 3 lies strictly above it, so slot 0
is not the topmost slot. -/
theorem C3_counterexample :
    (subRingSlot 0).y = -4 ∧ (subRingSlot 0).y < (subRingSlot 3).y := by
  have hang : slotAngle 0 = -(Real.pi / 2) := by
    unfold slotAngle
    norm_num
  have h0 : (subRingSlot 0).y = -4 := by
    show Real.sin (slotAngle 0) * 4 = -4
    rw [hang, Real.sin_neg, Real.sin_pi_div_two]
    norm_num
  refine ⟨h0, ?_⟩
  rw [h0]
  show (-4:ℝ) < Real.sin (slotAngle 3) * 4
  have hang3 : slotAngle 3 = 5 * Real.pi / 14 := by
    unfold slotAngle
    push_cast
    ring
  rw [hang3]
  have hπ := Real.pi_pos
  have hs : 0 < Real.sin (5 * Real.pi / 14) :=
    Real.sin_pos_of_pos_of_lt_pi (by positivity) (by nlinarith)
  nlinarith

/-! ### Claim C9: cycling -/

lemma navigateInternal_assembled {s : SMState} (b : PartId → Vec3 ℝ) (delta : ℤ)
    (h : s.state = Assembled) : navigateInternal b delta s = s := by
  unfold navigateInternal
  rw [if_pos]
  rintro (hc | hc)
  · exact (by decide : ¬ Assembled = PartView) (h.symm.trans hc)
  · exact (by decide : ¬ Assembled = Exploded) (h.symm.trans hc)

lemma navigateInternal_exploded {s : SMState} (b : PartId → Vec3 ℝ) (delta : ℤ)
    (h : s.state = Exploded) :
    navigateInternal b delta s
      = { s with
          currentPartIndex := navNewIndex delta s
          hoveredPart := some (.major (navNewPart delta s)) } := by
  unfold navigateInternal
  rw [if_neg (not_not_intro (Or.inr h)), if_neg (by decide),
    if_neg (show ¬ s.state = PartView by
      rw [h]; decide)]

lemma navigateInternal_partView {s : SMState} (b : PartId → Vec3 ℝ) (delta : ℤ)
    (h : s.state = PartView) :
    navigateInternal b delta s
      = selectPart b (navNewPart delta s)
          { s with currentPartIndex := navNewIndex delta s } := by
  unfold navigateInternal
  rw [if_neg (not_not_intro (Or.inl h)), if_neg (by decide), if_pos h]

lemma indexOfMajor_getD : ∀ m : ℕ, m < 7 → indexOfMajor (majorParts.getD m Head) = m := by
  intro m hm
  interval_cases m <;> rfl

lemma navNewIndex_next {s : SMState} (h0 : 0 ≤ s.currentPartIndex)
    (h7 : s.currentPartIndex < 7) :
    navNewIndex 1 s = (s.currentPartIndex + 1) % 7 := by
  unfold navNewIndex
  rw [Int.tmod_eq_emod (by omega) (by norm_num [majorParts])]
  show (s.currentPartIndex + 1 + (7:ℕ)) % (7:ℕ) = (s.currentPartIndex + 1) % 7
  omega

/-- Each `navigate(next)` in `PartView` advances the index by one modulo 7
and focuses the part list entry at the new index. -/
lemma nav_iter_partView (b : PartId → Vec3 ℝ) : ∀ (k : ℕ) (s : SMState),
    s.state = PartView → 0 ≤ s.currentPartIndex → s.currentPartIndex < 7 →
    s.selectedMajorPart = some (majorParts.getD s.currentPartIndex.toNat Head) →
    ((fun t => navigateInternal b 1 t)^[k] s).state = PartView ∧
    ((fun t => navigateInternal b 1 t)^[k] s).currentPartIndex
      = (s.currentPartIndex + k) % 7 ∧
    ((fun t => navigateInternal b 1 t)^[k] s).selectedMajorPart
      = some (majorParts.getD (((s.currentPartIndex + k) % 7).toNat) Head) := by
  intro k
  induction k with
  | zero =>
    intro s hpv h0 h7 hsel
    refine ⟨hpv, ?_, ?_⟩
    · simp only [Function.iterate_zero_apply, Nat.cast_zero, add_zero]
      omega
    · simp only [Function.iterate_zero_apply, Nat.cast_zero, add_zero]
      rw [Int.emod_eq_of_lt h0 h7]
      exact hsel
  | succ k ih =>
    intro s hpv h0 h7 hsel
    rw [Function.iterate_succ_apply]
    have hstep := navigateInternal_partView b 1 hpv
    have hidx : navNewIndex 1 s = (s.currentPartIndex + 1) % 7 := navNewIndex_next h0 h7
    have hrange : 0 ≤ (s.currentPartIndex + 1) % 7 ∧ (s.currentPartIndex + 1) % 7 < 7 := by
      omega
    have hnat : (((s.currentPartIndex + 1) % 7).toNat) < 7 := by omega
    have hpart : navNewPart 1 s
        = majorParts.getD (((s.currentPartIndex + 1) % 7).toNat) Head := by
      unfold navNewPart
      rw [hidx]
    obtain ⟨p1, p2, p3, _⟩ := selectPart_proj b (navNewPart 1 s)
      { s with currentPartIndex := navNewIndex 1 s }
    have hstate' : (navigateInternal b 1 s).state = PartView := by
      rw [hstep, p1, hpv]
    have hidx' : (navigateInternal b 1 s).currentPartIndex = (s.currentPartIndex + 1) % 7 := by
      rw [hstep, p3, hpart, indexOfMajor_getD _ hnat]
      omega
    have hsel' : (navigateInternal b 1 s).selectedMajorPart
        = some (majorParts.getD
            (((navigateInternal b 1 s).currentPartIndex).toNat) Head) := by
      rw [hstep, p2, p3, hpart, indexOfMajor_getD _ hnat]
      have hc : ((((s.currentPartIndex + 1) % 7).toNat : ℤ)).toNat
          = ((s.currentPartIndex + 1) % 7).toNat := by omega
      rw [hc]
    obtain ⟨i1, i2, i3⟩ := ih (navigateInternal b 1 s) hstate'
      (by rw [hidx']; omega) (by rw [hidx']; omega)
      (by rw [hsel', hidx'])
    refine ⟨i1, ?_, ?_⟩
    · rw [i2, hidx']
      push_cast
      omega
    · rw [i3, hidx']
      have hc : ((s.currentPartIndex + 1) % 7 + (k:ℤ)) % 7
          = (s.currentPartIndex + ((k:ℕ)+1 : ℕ)) % 7 := by
        push_cast
        omega
      rw [hc]

/-- C9 (amended).  Cycling updates `navigationIndex` by ±1 modulo the
major-part count only in the `PartView` and `Exploded` states; in `PartView`
it re-runs the major-part selection with the new index's part, seven
consecutive `cycle(next)` calls return to the originally focused part; in
`Exploded` it only moves the highlighted pointer without changing the state
tag; and in `Assembled` cycling is a complete no-op (the claim's unconditional
index update is false there — see the counterexample). -/
theorem C9_cycling_wrap_around (b : PartId → Vec3 ℝ) (s : SMState) (delta : ℤ)
    (hd : delta = 1 ∨ delta = -1)
    (h0 : 0 ≤ s.currentPartIndex) (h7 : s.currentPartIndex < 7) :
    ((s.state = PartView ∨ s.state = Exploded) →
        (navigateInternal b delta s).currentPartIndex
          = (s.currentPartIndex + delta + (majorParts.length : ℤ)).tmod
              (majorParts.length : ℤ)) ∧
    (s.state = Exploded →
        (navigateInternal b delta s).state = Exploded ∧
        (navigateInternal b delta s).selectedMajorPart = s.selectedMajorPart ∧
        (navigateInternal b delta s).currentPartIndex = navNewIndex delta s ∧
        (navigateInternal b delta s).hoveredPart
          = some (.major (navNewPart delta s))) ∧
    (s.state = PartView →
        (navigateInternal b delta s).state = PartView ∧
        (navigateInternal b delta s).selectedMajorPart = some (navNewPart delta s) ∧
        (navigateInternal b delta s).currentPartIndex
          = (indexOfMajor (navNewPart delta s) : ℤ)) ∧
    (s.state = Assembled → navigateInternal b delta s = s) ∧
    (s.state = PartView →
        s.selectedMajorPart = some (majorParts.getD s.currentPartIndex.toNat Head) →
        ((fun t => navigateInternal b 1 t)^[7] s).selectedMajorPart
          = s.selectedMajorPart ∧
        ((fun t => navigateInternal b 1 t)^[7] s).currentPartIndex
          = s.currentPartIndex ∧
        ((fun t => navigateInternal b 1 t)^[7] s).state = PartView) := by
  have hlen : ((majorParts.length : ℕ) : ℤ) = 7 := by decide
  refine ⟨?_, ?_, ?_, ?_, ?_⟩
  · rintro (hpv | hex)
    · obtain ⟨_, _, p3, _⟩ := selectPart_proj b (navNewPart delta s)
        { s with currentPartIndex := navNewIndex delta s }
      rw [navigateInternal_partView b delta hpv, p3]
      have hnn : 0 ≤ s.currentPartIndex + delta + ((majorParts.length : ℕ) : ℤ) := by
        rw [hlen]
        rcases hd with h | h <;> (subst h; omega)
      have hemod : navNewIndex delta s
          = (s.currentPartIndex + delta + ((majorParts.length : ℕ) : ℤ))
              % ((majorParts.length : ℕ) : ℤ) := by
        unfold navNewIndex
        exact Int.tmod_eq_emod hnn (by rw [hlen]; norm_num)
      have hrange : 0 ≤ navNewIndex delta s ∧ navNewIndex delta s < 7 := by
        rw [hemod, hlen]
        refine ⟨Int.emod_nonneg _ (by norm_num), ?_⟩
        omega
      have hnat : (navNewIndex delta s).toNat < 7 := by omega
      unfold navNewPart
      rw [indexOfMajor_getD _ hnat]
      exact Int.toNat_of_nonneg hrange.1
    · rw [navigateInternal_exploded b delta hex]
      rfl
  · intro hex
    rw [navigateInternal_exploded b delta hex]
    exact ⟨hex, rfl, rfl, rfl⟩
  · intro hpv
    obtain ⟨p1, p2, p3, _⟩ := selectPart_proj b (navNewPart delta s)
      { s with currentPartIndex := navNewIndex delta s }
    rw [navigateInternal_partView b delta hpv]
    exact ⟨p1.trans hpv, p2, p3⟩
  · exact navigateInternal_assembled b delta
  · intro hpv hsel
    obtain ⟨i1, i2, i3⟩ := nav_iter_partView b 7 s hpv h0 h7 hsel
    have hmod : (s.currentPartIndex + (7:ℕ)) % 7 = s.currentPartIndex := by
      push_cast
      omega
    refine ⟨?_, ?_, i1⟩
    · rw [i3, hmod, hsel]
    · rw [i2, hmod]

/-- A concrete `PartView` state focused on `Head` at index 0. -/
noncomputable def samplePartViewHead : SMState :=
  { initSM zeroBase with
    state := PartView
    selectedMajorPart := some Head
    globalExplosion := 1
    globalExplosionTarget := 1 }

/-- Witness for C9: from `PartView` focused on `Head` (index 0), seven
`cycle(next)` calls return the focus and index to `Head` / 0, and the
`Assembled` initial state ignores cycling. -/
theorem C9_witness :
    ((fun t => navigateInternal zeroBase 1 t)^[7] samplePartViewHead).selectedMajorPart
      = samplePartViewHead.selectedMajorPart ∧
    ((fun t => navigateInternal zeroBase 1 t)^[7] samplePartViewHead).currentPartIndex
      = samplePartViewHead.currentPartIndex ∧
    ((fun t => navigateInternal zeroBase 1 t)^[7] samplePartViewHead).state = PartView ∧
    navigateInternal zeroBase 1 (initSM zeroBase) = initSM zeroBase := by
  have h := C9_cycling_wrap_around zeroBase samplePartViewHead 1 (Or.inl rfl)
    (by norm_num [samplePartViewHead, initSM]) (by norm_num [samplePartViewHead, initSM])
  obtain ⟨w1, w2, w3⟩ := h.2.2.2.2 rfl rfl
  have h2 := C9_cycling_wrap_around zeroBase (initSM zeroBase) 1 (Or.inl rfl)
    (by norm_num [initSM]) (by norm_num [initSM])
  exact ⟨w1, w2, w3, h2.2.2.2.1 rfl⟩

/-- C9 counterexample.  The claim says `cycle(next)` updates the navigation
index by +1 modulo the part count; in the `Assembled` initial state the call
is a complete no-op and the index stays 0 instead of becoming 1. -/
theorem C9_counterexample :
    navigateInternal zeroBase 1 (initSM zeroBase) = initSM zeroBase ∧
    (navigateInternal zeroBase 1 (initSM zeroBase)).currentPartIndex
      ≠ ((initSM zeroBase).currentPartIndex + 1 + (majorParts.length : ℤ)).tmod
          (majorParts.length : ℤ) := by
  have heq := @navigateInternal_assembled (initSM zeroBase) zeroBase 1 rfl
  refine ⟨heq, ?_⟩
  rw [heq]
  decide

/-! ### Claim C8: drill affordance on re-selection (`selectionController.ts`) -/

/-- `FocusMode` — `'global' | 'part'`. -/
inductive FocusMode : Type
  | globalMode | partMode
  deriving DecidableEq, Repr

/-- A `MechPart` as the `SelectionController` sees it: its node name (an
abstract identifier) and the child count of its mesh (what `drillDown`
inspects via `mesh.children.length`). -/
structure MechPartM where
  name : ℕ
  childCount : ℕ
  deriving DecidableEq, Repr

/-- The selection-relevant state of a `SelectionController` (highlighting,
dimming and focus animation are material/visual effects on the rendering
side and carry no selection state). -/
structure SelState where
  selectedPart : Option MechPartM
  focusMode : FocusMode
  focusRoot : Option MechPartM
  navigationStack : List MechPartM
  deriving DecidableEq, Repr

/-- `SelectionController.setFocusMode(mode, part)`:
`focusRoot = part?.mesh || null`. -/
def setFocusMode (mode : FocusMode) (part : Option MechPartM) (s : SelState) : SelState :=
  { s with focusMode := mode, focusRoot := part }

/-- `SelectionController.drillDown()`: if the selected part's mesh has
children, push it on the navigation stack, make it the focus root and clear
the selection (ready to pick a sub-part); otherwise a no-op. -/
def drillDown (s : SelState) : SelState :=
  match s.selectedPart with
  | none => s
  | some part =>
    if part.childCount > 0 then
      { s with
        navigationStack := s.navigationStack ++ [part]
        focusRoot := some part
        selectedPart := none }
    else s

/-- `SelectionController.setSelectedPart(part)`: selecting the part that is
already selected means `drillDown()`; otherwise select-and-focus (or, for
`null`, return to global mode). -/
def setSelectedPart (part : Option MechPartM) (s : SelState) : SelState :=
  if part ≠ none ∧ s.selectedPart = part then drillDown s
  else
    match part with
    | some p => setFocusMode FocusMode.partMode (some p) { s with selectedPart := some p }
    | none => setFocusMode FocusMode.globalMode none { s with selectedPart := none }

/-- C8 (confirmed).  Re-selecting the already-selected part `x` never moves
the selection to a different part; if `x` has children the second selection
is exactly the drill-down (descend: push `x`, focus its mesh, clear the
selection to pick among its children), and if it has none it is a strict
no-op.  Likewise, in the `SimpleStateMachine`, re-activating the focused
major part leaves `selectedMajorPart` unchanged. -/
theorem C8_drill_affordance (s : SelState) (x : MechPartM)
    (hsel : s.selectedPart = some x) :
    (x.childCount > 0 →
      setSelectedPart (some x) s
        = { s with
            navigationStack := s.navigationStack ++ [x]
            focusRoot := some x
            selectedPart := none }) ∧
    (x.childCount = 0 → setSelectedPart (some x) s = s) ∧
    (∀ y : MechPartM, (setSelectedPart (some x) s).selectedPart = some y → y = x) ∧
    (∀ (b : PartId → Vec3 ℝ) (t : SMState) (p : MajorPartId),
      t.hoveredPart = some (.major p) → t.selectedMajorPart = some p →
      (selectHoveredPart b t).2.selectedMajorPart = some p) := by
  have hcond : (some x ≠ none ∧ s.selectedPart = some x) := ⟨by simp, hsel⟩
  have hdrill : setSelectedPart (some x) s = drillDown s := by
    unfold setSelectedPart
    rw [if_pos hcond]
  refine ⟨?_, ?_, ?_, ?_⟩
  · intro hchild
    rw [hdrill]
    unfold drillDown
    rw [hsel]
    dsimp only
    rw [if_pos hchild, ← hsel]
  · intro hnone
    rw [hdrill]
    unfold drillDown
    rw [hsel]
    dsimp only
    rw [if_neg (by omega)]
  · intro y hy
    rw [hdrill] at hy
    unfold drillDown at hy
    rw [hsel] at hy
    dsimp only at hy
    by_cases hchild : x.childCount > 0
    · rw [if_pos hchild] at hy
      exact absurd hy (by simp)
    · rw [if_neg hchild, hsel] at hy
      exact (Option.some.injEq _ _ ▸ hy).symm
  · intro b t p hhov hselp
    by_cases hg : t.state = Exploded ∨ t.globalExplosion > 1/10
    · rw [selectHoveredPart_major_exploded b p hhov hg]
      dsimp only
      obtain ⟨_, t2, _⟩ := transitionTo_proj PartView (selectHoveredWrite p t)
      obtain ⟨_, _, _, _, a5, _⟩ := applyPartViewLayout_sameUI
        (transitionTo PartView (selectHoveredWrite p t))
      rw [a5, t2]
      rfl
    · by_cases hpv : t.state = PartView
      · rw [selectHoveredPart_major_partView b p hhov hg hpv]
        exact (selectPart_proj b p t).2.1
      · rw [selectHoveredPart_major_assembled b p hhov hg hpv]
        exact hselp

/-- A concrete selection state: the arm part (3 children) is selected. -/
def selSample : SelState :=
  { selectedPart := some ⟨3, 3⟩
    focusMode := FocusMode.partMode
    focusRoot := some ⟨3, 3⟩
    navigationStack := [] }

/-- Witness for C8: re-selecting the selected arm part (3 children) performs
the drill-down, and re-activating the focused major part in the state
machine keeps the focus. -/
theorem C8_witness :
    setSelectedPart (some ⟨3, 3⟩) selSample
      = { selSample with
          navigationStack := selSample.navigationStack ++ [⟨3, 3⟩]
          focusRoot := some ⟨3, 3⟩
          selectedPart := none } ∧
    (selectHoveredPart zeroBase
        { samplePartView with hoveredPart := some (.major Leftarm) }).2.selectedMajorPart
      = some Leftarm :=
  ⟨(C8_drill_affordance selSample ⟨3, 3⟩ rfl).1 (by norm_num),
   (C8_drill_affordance selSample ⟨3, 3⟩ rfl).2.2.2 zeroBase
     { samplePartView with hoveredPart := some (.major Leftarm) } Leftarm rfl rfl⟩

/-! ### Claim C10: per-part transform derivation -/

lemma ECfold_notin (eff : ℝ) : ∀ (parts : List PartData) (s : ECState) (n : ℕ),
    n ∉ parts.map PartData.name →
    (parts.foldl (ECapplyPart eff) s).meshPos n = s.meshPos n ∧
    (parts.foldl (ECapplyPart eff) s).meshRot n = s.meshRot n := by
  intro parts
  induction parts with
  | nil => intro s n _; exact ⟨rfl, rfl⟩
  | cons d parts ih =>
    intro s n hn
    rw [List.map_cons, List.mem_cons] at hn
    push_neg at hn
    rw [List.foldl_cons]
    obtain ⟨h1, h2⟩ := ih (ECapplyPart eff s d) n hn.2
    refine ⟨h1.trans ?_, h2.trans ?_⟩
    · unfold ECapplyPart
      dsimp only
      rw [if_neg hn.1]
    · unfold ECapplyPart
      dsimp only
      rw [if_neg hn.1]

lemma ECfold_lookup (eff : ℝ) : ∀ (parts : List PartData) (s : ECState) (d : PartData),
    d ∈ parts → (parts.map PartData.name).Nodup →
    (parts.foldl (ECapplyPart eff) s).meshPos d.name = ECpartPosition d eff ∧
    (parts.foldl (ECapplyPart eff) s).meshRot d.name = ECpartRotation d eff := by
  intro parts
  induction parts with
  | nil => intro s d hd _; exact absurd hd (List.not_mem_nil d)
  | cons e parts ih =>
    intro s d hd hnodup
    rw [List.map_cons, List.nodup_cons] at hnodup
    rw [List.foldl_cons]
    rcases List.mem_cons.mp hd with heq | hmem
    · subst heq
      obtain ⟨n1, n2⟩ := ECfold_notin eff parts (ECapplyPart eff s d) d.name hnodup.1
      refine ⟨n1.trans ?_, n2.trans ?_⟩
      · unfold ECapplyPart
        dsimp only
        rw [if_pos rfl]
      · unfold ECapplyPart
        dsimp only
        rw [if_pos rfl]
    · exact ih (ECapplyPart eff s e) d hmem hnodup.2

/-- C10 (amended).  In the `ExplodeController`, after one `update()` every
cached part's position is `basePosition + explodeDirection * (explodeDistance
* currentFactor * 2)` — with the ×2 — and its rotation is `baseRotation +
explodeDirection * (currentFactor * ROTATION_AMOUNT)` when the factor
exceeds 0.01 and exactly `baseRotation` otherwise; transforms are recomputed
from the base pose, so they depend only on the current factor, never on the
previous transform.  `SimpleStateMachine.applyNormalExplosion`, however, uses
`originalPosition + normalize(direction) * (distance * globalExplosion)` with
no ×2 and no rotation change (see the counterexample). -/
theorem C10_per_part_transform (parts : List PartData) (s : ECState) (d : PartData)
    (hd : d ∈ parts) (hnodup : (parts.map PartData.name).Nodup) :
    (ECupdate parts s).meshPos d.name
      = d.basePosition.add
          (Vec3.smul
            (d.explodeDistance
              * ((ecTick s.globalFactorTarget s.globalFactorCurrent : ℚ) : ℝ) * 2)
            d.explodeDirection) ∧
    (((ecTick s.globalFactorTarget s.globalFactorCurrent : ℚ) : ℝ) > 1/100 →
      (ECupdate parts s).meshRot d.name
        = d.baseRotation.add
            (Vec3.smul
              (((ecTick s.globalFactorTarget s.globalFactorCurrent : ℚ) : ℝ)
                * ((ROTATION_AMOUNT : ℚ) : ℝ))
              d.explodeDirection)) ∧
    (¬ ((ecTick s.globalFactorTarget s.globalFactorCurrent : ℚ) : ℝ) > 1/100 →
      (ECupdate parts s).meshRot d.name = d.baseRotation) ∧
    (∀ s₁ s₂ : ECState, s₁.globalFactorCurrent = s₂.globalFactorCurrent →
      (ECupdatePartPositions parts s₁).meshPos d.name
        = (ECupdatePartPositions parts s₂).meshPos d.name) ∧
    (∀ (bp : PartId → Vec3 ℝ) (t : SMState) (p : MajorPartId),
      (applyNormalExplosion bp t).positions p
        = (bp (.major p)).add
            (Vec3.smul ((explodeOffsetDist (.major p) : ℝ) * (t.globalExplosion : ℝ))
              (normalize (explodeOffsetDir (.major p)).toReal))) := by
  have heff : ∀ u : ECState,
      ECupdatePartPositions parts u
        = parts.foldl (ECapplyPart ((u.globalFactorCurrent : ℝ) * 1)) u := fun u => rfl
  obtain ⟨l1, l2⟩ := ECfold_lookup
    (((ecTick s.globalFactorTarget s.globalFactorCurrent : ℚ) : ℝ) * 1) parts
    { s with
      globalFactorCurrent := smoothValue s.globalFactorCurrent s.globalFactorTarget
        EXPLODE_SMOOTHING
      partFactorCurrent := smoothValue s.partFactorCurrent s.partFactorTarget
        EXPLODE_SMOOTHING }
    d hd hnodup
  refine ⟨?_, ?_, ?_, ?_, ?_⟩
  · refine l1.trans ?_
    unfold ECpartPosition
    rw [mul_one]
  · intro hgt
    refine l2.trans ?_
    unfold ECpartRotation
    rw [mul_one, if_pos hgt]
  · intro hle
    refine l2.trans ?_
    unfold ECpartRotation
    rw [mul_one, if_neg hle]
  · intro s₁ s₂ hfac
    obtain ⟨m1, _⟩ := ECfold_lookup ((s₁.globalFactorCurrent : ℝ) * 1) parts s₁ d hd hnodup
    obtain ⟨m2, _⟩ := ECfold_lookup ((s₂.globalFactorCurrent : ℝ) * 1) parts s₂ d hd hnodup
    rw [heff s₁, heff s₂, m1, m2, hfac]
  · intro bp t p
    rfl

/-- The sample controller state with global target 1. -/
def ecSampleT1 : ECState := { ecSample with globalFactorTarget := 1 }

/-- Witness for C10: a one-part cache with unit direction along the y-axis
and distance 1/2, smoothed from a cold start toward target 1 (one tick gives
factor 1/20): position offset is `1/2 * (1/20) * 2` along y. -/
theorem C10_witness :
    (ECupdate [⟨0, ⟨0, 0, 0⟩, ⟨0, 0, 0⟩, ⟨0, 1, 0⟩, 1/2⟩] ecSampleT1).meshPos 0
      = (Vec3.mk (0:ℝ) 0 0).add
          (Vec3.smul
            ((1/2 : ℝ)
              * ((ecTick ecSampleT1.globalFactorTarget ecSampleT1.globalFactorCurrent : ℚ) : ℝ)
              * 2)
            ⟨0, 1, 0⟩) :=
  (C10_per_part_transform [⟨0, ⟨0, 0, 0⟩, ⟨0, 0, 0⟩, ⟨0, 1, 0⟩, 1/2⟩] ecSampleT1
    ⟨0, ⟨0, 0, 0⟩, ⟨0, 0, 0⟩, ⟨0, 1, 0⟩, 1/2⟩ (List.mem_singleton.mpr rfl)
    (List.nodup_singleton 0)).1

/-- The y component of a normalised vector with positive y stays positive. -/
lemma normalize_y_pos (v : Vec3 ℝ) (hy : 0 < v.y) : 0 < (normalize v).y := by
  have hsum : 0 < v.x ^ 2 + v.y ^ 2 + v.z ^ 2 := by
    nlinarith [sq_nonneg v.x, sq_nonneg v.z]
  have hlen : 0 < Real.sqrt (v.x ^ 2 + v.y ^ 2 + v.z ^ 2) := Real.sqrt_pos.mpr hsum
  unfold normalize
  dsimp only
  rw [if_neg (ne_of_gt hlen)]
  exact div_pos hy hlen

/-- A concrete fully exploded machine state. -/
noncomputable def cxNE : SMState :=
  { initSM zeroBase with state := Exploded, globalExplosion := 1 }

/-- C10 counterexample.  The claim's formula,
`basePosition + explodeDirection * explodeDistance * currentFactor * 2`,
fails for `SimpleStateMachine.applyNormalExplosion`: for the `Head` part at
global factor 1 the code (distance 0.5, no ×2) yields a different position
from the claimed ×2 formula. -/
theorem C10_counterexample :
    (applyNormalExplosion zeroBase cxNE).positions Head
      ≠ (zeroBase (.major Head)).add
          (Vec3.smul
            ((explodeOffsetDist (.major Head) : ℝ) * (cxNE.globalExplosion : ℝ) * 2)
            (normalize (explodeOffsetDir (.major Head)).toReal)) := by
  intro h
  have hupos : 0 < (normalize (explodeOffsetDir (.major Head)).toReal).y := by
    apply normalize_y_pos
    show (0:ℝ) < ((4/5 : ℚ) : ℝ)
    norm_num
  have hy := congrArg Vec3.y h
  have hL : (applyNormalExplosion zeroBase cxNE).positions Head
      = (zeroBase (.major Head)).add
          (Vec3.smul ((explodeOffsetDist (.major Head) : ℝ) * (cxNE.globalExplosion : ℝ))
            (normalize (explodeOffsetDir (.major Head)).toReal)) := rfl
  rw [hL] at hy
  unfold Vec3.add Vec3.smul zeroBase at hy
  dsimp only at hy
  have hdist : ((explodeOffsetDist (.major Head) : ℚ) : ℝ) = 1/2 := by
    norm_num [explodeOffsetDist]
  have hgE : ((cxNE.globalExplosion : ℚ) : ℝ) = 1 := by
    norm_num [cxNE, initSM]
  rw [hdist, hgE] at hy
  nlinarith [hupos, hy]

end Jarvis
